import Mathlib

/-!
# Verification of the diffit.tools diff engine (packages/diff-engine)

A shallow embedding, in Lean 4, of the Rust diff engine of this repository:

* `myers.rs`    — the Myers edit-script search, backtracking, snake-move
                  translation, and the modification-coalescing pass;
* `diff.rs`     — `compute_diff`, preprocessing, hunk assembly, statistics;
* `streaming.rs`— the chunked streaming session and its line buffers;
* `syntax.rs`   — the regex-driven syntax highlighter.

Modelling conventions:

* Rust `usize` values are modelled as `Nat`.  The single place where the code
  casts a possibly-negative `i32` to `usize` (`SnakeMove` coordinates in
  `backtrack_ses`) is modelled by `intToUsize`, which wraps modulo `2 ^ 64`
  (the 64-bit test target; on a 32-bit wasm target the same statements hold
  with `2 ^ 32`).
* Rust `i32` values are modelled as `Int`; the line counts reaching these
  variables are far below `2 ^ 31`, so `i32` overflow cannot occur and `Int`
  is an exact model.
* Rust `&str` is modelled as Lean `String`; Rust `str::len` (a byte count) is
  `String.utf8ByteSize`, and Rust `chars()` is `String.toList`, both of which
  agree with Rust's UTF-8 semantics.
* Rust `f32` similarity comparisons (`1.0 - d as f32 / m as f32 > 0.5`) are
  modelled in exact arithmetic as `2 * d < m`; for the operand ranges reached
  here (both operands below `2 ^ 24`) the `f32` computation and the exact
  computation agree.
* A Rust panic (out-of-bounds byte slicing in `syntax.rs`) is modelled by an
  `Option`, with `none` standing for the panic.
* Loops are modelled by structurally recursive functions; where a loop has no
  structurally decreasing argument, an explicit fuel parameter bounds the
  iteration count, with the fuel chosen so that it provably cannot run out on
  the executions the code performs.
-/

set_option maxHeartbeats 1000000

namespace Diffit

/-- Width of `usize` on the (64-bit) test target. -/
def USIZE : Nat := 2 ^ 64

/-- Rust `expr as usize` applied to an `i32` value: two's-complement wrap into
`0 .. 2^64`.  For nonnegative `i` this is `i.toNat`; for `-1` it is
`2 ^ 64 - 1`. -/
def intToUsize (i : Int) : Nat := (i % (USIZE : Int)).toNat

/-- Split a character list on `'\n'` (the segments, without the
separators; one more segment than separators). -/
def splitOnNl : List Char → List (List Char)
  | [] => [[]]
  | c :: rest =>
    match splitOnNl rest with
    | seg :: segs => if c = '\n' then [] :: seg :: segs else (c :: seg) :: segs
    | [] => []

/-- Rust `str::lines`: split on `'\n'`, drop a final empty piece produced by a
trailing newline, and strip one trailing `'\r'` from every piece. -/
def rustLines (s : String) : List String :=
  if s.data = [] then []
  else
    let parts := splitOnNl s.data
    let parts := if s.data.getLast? = some '\n' then parts.dropLast else parts
    parts.map fun l =>
      String.mk (if l.getLast? = some '\r' then l.dropLast else l)

/-- Substring test used to model Rust `str::contains` (for the content-based
language sniffing in `diff.rs`). -/
def listContains (needle hay : List Char) : Bool :=
  hay.tails.any fun t => needle.isPrefixOf t

/-- Embeds `ChangeType` from `diff.rs`. -/
inductive ChangeType where
  | added
  | removed
  | modified
  | unchanged
deriving DecidableEq, Repr

/-- A raw edit from `MyersDiff::compute_diff`: `(ChangeType, usize, usize)`. -/
abbrev RawChange := ChangeType × Nat × Nat

/-- Embeds `SnakeMove` from `myers.rs`.  The coordinates are the `usize` values
stored by the Rust code (which casts `i32` coordinates with `as usize`). -/
inductive SnakeMove where
  | diagonal (x y : Nat)
  | down (x y : Nat)
  | right (x y : Nat)
deriving DecidableEq, Repr

/-- Read `v[i]` from the Myers `V` array (the Rust accesses are in bounds on
every path the code reaches, so a default of `0` is exact). -/
def vGet (v : List Int) (i : Nat) : Int := v.getD i 0

/-- Write `v[i] = x`. -/
def vSet (v : List Int) (i : Nat) (x : Int) : List Int := v.set i x

/-- The predecessor-choice predicate shared verbatim by the forward search and
the backtracking pass of `myers.rs`
(`k == -d || (k != d && v[idx - 1] < v[idx + 1])`): `true` selects the
insertion predecessor `k + 1`, `false` the deletion predecessor `k - 1`. -/
def choosePrevIsInsert (d : Nat) (k : Int) (v : List Int) (idx : Nat) : Prop :=
  k = -(d : Int) ∨ (k ≠ (d : Int) ∧ vGet v (idx - 1) < vGet v (idx + 1))

instance (d : Nat) (k : Int) (v : List Int) (idx : Nat) :
    Decidable (choosePrevIsInsert d k v idx) := by
  unfold choosePrevIsInsert; infer_instance

/-- The starting `x` of the `d, k` step of the forward search
(`myers.rs`, `shortest_edit_script`, lines 64–68). -/
def forwardStartX (maxd d : Nat) (v : List Int) (k : Int) : Int :=
  let idx := intToUsize (k + (maxd : Int))
  if choosePrevIsInsert d k v idx then vGet v (idx + 1) else vGet v (idx - 1) + 1

/-- The predecessor diagonal chosen by `backtrack_ses` (lines 107–111). -/
def btPrevK (nm d : Nat) (v : List Int) (k : Int) : Int :=
  let idx := intToUsize (k + (nm : Int))
  if choosePrevIsInsert d k v idx then k + 1 else k - 1

/-- The snake-extension loop of the forward search (lines 75–78):
`while (x as usize) < n && (y as usize) < m && old[x] == new[y] {x+=1;y+=1}`.
Fuel `n + 1` bounds the iterations: each iteration needs
`intToUsize x < n` and increments `x`, so at most `n` iterations happen. -/
def extendSnake (A B : List String) (n m : Nat) : Nat → Int → Int → Int × Int
  | 0, x, y => (x, y)
  | fuel + 1, x, y =>
    if intToUsize x < n ∧ intToUsize y < m ∧
        A.getD (intToUsize x) "" = B.getD (intToUsize y) "" then
      extendSnake A B n m fuel (x + 1) (y + 1)
    else (x, y)

/-- The list of diagonals visited for edit distance `d`:
`(-(d as i32)..=(d as i32)).step_by(2)`. -/
def kRange (d : Nat) : List Int :=
  (List.range (d + 1)).map fun i => -(d : Int) + 2 * i

/-- One iteration of the inner `k` loop of `shortest_edit_script` for a fixed
`d`.  Returns `Except.error snapFinal` when the `x >= n && y >= m` exit fires
(with `v_snapshot[idx] = x` applied, line 85), else the updated `v`. -/
def sesKLoop (A B : List String) (n m maxd d : Nat) (vSnap : List Int) :
    List Int → List Int → Except (List Int) (List Int)
  | [], v => .ok v
  | k :: ks, v =>
    let idx := intToUsize (k + (maxd : Int))
    let x0 := forwardStartX maxd d v k
    let y0 := x0 - k
    let (x, y) := extendSnake A B n m (n + 1) x0 y0
    let v' := vSet v idx x
    if n ≤ intToUsize x ∧ m ≤ intToUsize y then
      .error (vSet vSnap idx x)
    else
      sesKLoop A B n m maxd d vSnap ks v'

/-- The outer `d` loop of `shortest_edit_script`.  Returns the trace and
whether the end of both sequences was reached (the Rust code pushes the
snapshot of `v` taken before the `d` iteration only on the terminal exit, and
the post-iteration `v` otherwise, line 86 vs line 91). -/
def sesDLoop (A B : List String) (n m maxd : Nat) :
    List Nat → List Int → List (Nat × List Int) → List (Nat × List Int) × Bool
  | [], _v, trace => (trace, false)
  | d :: ds, v, trace =>
    match sesKLoop A B n m maxd d v (kRange d) v with
    | .error snapFinal => (trace ++ [(d, snapFinal)], true)
    | .ok v' => sesDLoop A B n m maxd ds v' (trace ++ [(d, v')])

/-- The diagonal (snake) emission loop of `backtrack_ses` (lines 117–121).
Fuel `(x - prevX).toNat` is exact: each iteration needs `prevX < x` and
decrements `x`, and when the fuel reaches `0` the loop guard is false. -/
def btDiagLoop (prevX prevY : Int) :
    Nat → Int → Int → List SnakeMove → Int × Int × List SnakeMove
  | 0, x, y, acc => (x, y, acc)
  | fuel + 1, x, y, acc =>
    if prevX < x ∧ prevY < y then
      btDiagLoop prevX prevY fuel (x - 1) (y - 1)
        (acc ++ [.diagonal (intToUsize (x - 1)) (intToUsize (y - 1))])
    else (x, y, acc)

/-- One trace entry of `backtrack_ses` (lines 103–129): reconstruct the
predecessor, emit the snake moves, then at most one `Down`/`Right` move.  The
`Down`/`Right` coordinates are the Rust `as usize` casts of the possibly
negative `i32` cursor values. -/
def btEntry (nm : Nat) (x y : Int) (d : Nat) (v : List Int) (acc : List SnakeMove) :
    Int × Int × List SnakeMove :=
  let k := x - y
  let prevK := btPrevK nm d v k
  let prevIdx := intToUsize (prevK + (nm : Int))
  let prevX := vGet v prevIdx
  let prevY := prevX - prevK
  let (x1, y1, acc1) := btDiagLoop prevX prevY (x - prevX).toNat x y acc
  if prevX < x1 then
    (x1 - 1, y1, acc1 ++ [.down (intToUsize (x1 - 1)) (intToUsize y1)])
  else if prevY < y1 then
    (x1, y1 - 1, acc1 ++ [.right (intToUsize x1) (intToUsize (y1 - 1))])
  else (x1, y1, acc1)

/-- The loop of `backtrack_ses` over the reversed trace, with the
`if *d == 0 { break; }` placed, as in the Rust code, after the move emission
of the entry. -/
def btLoop (nm : Nat) : List (Nat × List Int) → Int → Int → List SnakeMove → List SnakeMove
  | [], _x, _y, acc => acc
  | (d, v) :: rest, x, y, acc =>
    let r := btEntry nm x y d v acc
    if d = 0 then r.2.2 else btLoop nm rest r.1 r.2.1 r.2.2

/-- Embeds `MyersDiff::backtrack_ses`. -/
def backtrackSes (trace : List (Nat × List Int)) (n m : Nat) : List SnakeMove :=
  (btLoop (n + m) trace.reverse (n : Int) (m : Int) []).reverse

/-- Embeds `MyersDiff::shortest_edit_script`: run the forward search, then backtrack;
if the search exhausts `d = 0 ..= max_d` without reaching the end, return the
empty move list (line 94). -/
def shortestEditScript (A B : List String) : List SnakeMove :=
  let n := A.length
  let m := B.length
  let maxd := n + m
  let v0 := List.replicate (2 * maxd + 1) (0 : Int)
  match sesDLoop A B n m maxd (List.range (maxd + 1)) v0 [] with
  | (trace, true) => backtrackSes trace n m
  | (_, false) => []

/-- The catch-up loop at the start of the `Diagonal` arm of
`ses_to_changes` (myers.rs lines 149–161): emit edits until the cursors reach
the move's coordinates.  Fuel `x + y + 1` bounds the iterations (each
iteration needs `oldIdx < x` or `newIdx < y` and increments a cursor). -/
def catchUp (x y : Nat) :
    Nat → Nat → Nat → List RawChange → List RawChange × Nat × Nat
  | 0, oldIdx, newIdx, acc => (acc, oldIdx, newIdx)
  | fuel + 1, oldIdx, newIdx, acc =>
    if oldIdx < x ∨ newIdx < y then
      if oldIdx < x ∧ newIdx < y then
        catchUp x y fuel (oldIdx + 1) (newIdx + 1)
          (acc ++ [(.unchanged, oldIdx, newIdx)])
      else if oldIdx < x then
        catchUp x y fuel (oldIdx + 1) newIdx (acc ++ [(.removed, oldIdx, newIdx)])
      else
        catchUp x y fuel oldIdx (newIdx + 1) (acc ++ [(.added, oldIdx, newIdx)])
    else (acc, oldIdx, newIdx)

/-- The `Down` arm of `ses_to_changes` (lines 166–171):
`while old_idx <= x { push (Removed, old_idx, new_idx); old_idx += 1 }`.
Emits `(Removed, i, newIdx)` for `i ∈ [oldIdx, x]` and leaves the cursor at
`max oldIdx (x + 1)`. -/
def emitDown (x oldIdx newIdx : Nat) : List RawChange × Nat :=
  ((List.range' oldIdx (x + 1 - oldIdx)).map fun i => (.removed, i, newIdx),
    max oldIdx (x + 1))

/-- The `Right` arm of `ses_to_changes` (lines 172–177). -/
def emitRight (y oldIdx newIdx : Nat) : List RawChange × Nat :=
  ((List.range' newIdx (y + 1 - newIdx)).map fun j => (.added, oldIdx, j),
    max newIdx (y + 1))

/-- The move-processing loop of `ses_to_changes` (lines 146–179). -/
def sesToChangesLoop :
    List SnakeMove → Nat → Nat → List RawChange → List RawChange × Nat × Nat
  | [], oldIdx, newIdx, acc => (acc, oldIdx, newIdx)
  | .diagonal x y :: rest, oldIdx, newIdx, acc =>
    let r := catchUp x y (x + y + 1) oldIdx newIdx acc
    sesToChangesLoop rest (r.2.1 + 1) (r.2.2 + 1)
      (r.1 ++ [(.unchanged, r.2.1, r.2.2)])
  | .down x _ :: rest, oldIdx, newIdx, acc =>
    let r := emitDown x oldIdx newIdx
    sesToChangesLoop rest r.2 newIdx (acc ++ r.1)
  | .right _ y :: rest, oldIdx, newIdx, acc =>
    let r := emitRight y oldIdx newIdx
    sesToChangesLoop rest oldIdx r.2 (acc ++ r.1)

/-- Embeds `MyersDiff::ses_to_changes` up to, and excluding, the final
`detect_modifications` call: process the moves, then flush the remaining
suffixes (lines 182–190). -/
def sesToChangesRaw (A B : List String) (moves : List SnakeMove) : List RawChange :=
  let r := sesToChangesLoop moves 0 0 []
  let oldIdx := r.2.1
  let newIdx := r.2.2
  let afterOld :=
    r.1 ++ (List.range' oldIdx (A.length - oldIdx)).map fun i => (.removed, i, newIdx)
  let oldF := max oldIdx A.length
  afterOld ++ (List.range' newIdx (B.length - newIdx)).map fun j => (.added, oldF, j)

/-- Byte length of a line, Rust `str::len`. -/
def byteLen (s : String) : Nat := s.utf8ByteSize

/-- Embeds `levenshtein_distance` from `myers.rs` (lines 255–282), embedded exactly:
the rows are sized by the BYTE lengths `len1`, `len2`, the iteration is over
`chars()` (so a row cell at a char position), and the result is read at byte
index `len2`.  For ASCII inputs this is the textbook character-level
Levenshtein distance; for multi-byte inputs the final read can hit a cell the
inner loop never wrote (see `levenshteinDistance_multibyte` below). -/
def levenshteinDistance (s1 s2 : String) : Nat :=
  let len1 := byteLen s1
  let len2 := byteLen s2
  if len1 = 0 then len2
  else if len2 = 0 then len1
  else
    let prev0 := List.range (len2 + 1)
    let curr0 := List.replicate (len2 + 1) 0
    let step := fun (pc : List Nat × List Nat) (ic : Nat × Char) =>
      let prevRow := pc.1
      let i := ic.1
      let c1 := ic.2
      let curr1 := pc.2.set 0 (i + 1)
      let curr2 := s2.toList.enum.foldl
        (fun cr (jc : Nat × Char) =>
          let j := jc.1
          let cost := if c1 = jc.2 then 0 else 1
          cr.set (j + 1)
            (min (min (prevRow.getD (j + 1) 0 + 1) (cr.getD j 0 + 1))
              (prevRow.getD j 0 + cost)))
        curr1
      (curr2, prevRow)
    (s1.toList.enum.foldl step (prev0, curr0)).1.getD len2 0

/-- Embeds `MyersDiff::are_lines_similar` (lines 225–243).  The `f32` comparison
`1.0 - distance / max_len > 0.5` is modelled exactly as `2 * distance <
max_len` (see the module docstring). -/
def areLinesSimilar (A B : List String) (oldIdx newIdx : Nat) : Bool :=
  if A.length ≤ oldIdx ∨ B.length ≤ newIdx then false
  else
    let oldLine := A.getD oldIdx ""
    let newLine := B.getD newIdx ""
    let distance := levenshteinDistance oldLine newLine
    let maxLen := max (byteLen oldLine) (byteLen newLine)
    if maxLen = 0 then true
    else decide (2 * distance < maxLen)

/-- Embeds `MyersDiff::detect_modifications` (lines 197–222): scan the edit list and
replace each `Removed` immediately followed by an `Added` whose lines are
similar by one `Modified`; on a replacement the scan skips both entries.
Fuel = list length (each step consumes at least one entry). -/
def detectModsAux (A B : List String) : Nat → List RawChange → List RawChange
  | 0, l => l
  | _ + 1, [] => []
  | _ + 1, [c] => [c]
  | fuel + 1, c1 :: c2 :: rest =>
    if c1.1 = .removed ∧ c2.1 = .added ∧ areLinesSimilar A B c1.2.1 c2.2.2 then
      (.modified, c1.2.1, c2.2.2) :: detectModsAux A B fuel rest
    else
      c1 :: detectModsAux A B fuel (c2 :: rest)

/-- Embeds `detect_modifications` with the fuel instantiated to the list length. -/
def detectMods (A B : List String) (l : List RawChange) : List RawChange :=
  detectModsAux A B l.length l

/-- Embeds `MyersDiff::compute_diff` (lines 21–47): the empty-side shortcuts return
directly (skipping `detect_modifications`); otherwise run the search,
translate the moves and coalesce. -/
def myersComputeDiff (A B : List String) : List RawChange :=
  if A = [] ∧ B = [] then []
  else if A = [] then B.enum.map fun p => ((.added : ChangeType), 0, p.1)
  else if B = [] then A.enum.map fun p => ((.removed : ChangeType), p.1, 0)
  else detectMods A B (sesToChangesRaw A B (shortestEditScript A B))

/-! ## Syntax highlighting (`syntax.rs`) -/
/-- A produced token: `(token_type, class_name, start, end)` with byte
offsets, as returned by `SyntaxHighlighter::highlight`. -/
abbrev SyntaxToken := String × String × Nat × Nat

/-- Byte length of a char list (Rust `str::len` of the corresponding str). -/
def byteLenL (l : List Char) : Nat := (l.map Char.utf8Size).sum

/-- The regex patterns appearing in `LANGUAGE_DEFINITIONS` of `syntax.rs`,
as structured matchers: a line comment (`//.*` or `#.*`), a double-quoted
string (`"[^"]*"`), a keyword alternation with word boundaries, or an integer
(`\b\d+\b`). -/
inductive RulePattern where
  | lineComment (marker : List Char)
  | doubleQuotedString
  | keywords (kws : List (List Char))
  | number
deriving DecidableEq, Repr

/-- A `SyntaxRule` of `syntax.rs` (the compiled regex replaced by its
structured pattern). -/
structure SyntaxRule where
  pattern : RulePattern
  token_type : String
  class_name : String
  priority : Nat
deriving DecidableEq, Repr

/-- Word character for regex `\b` boundaries (`[0-9A-Za-z_]`; the rules in
`syntax.rs` only involve ASCII so the ASCII reading of `\w` is exact here). -/
def isWordChar (c : Char) : Bool := c.isAlphanum || c = '_'

/-- Leftmost occurrence (byte offset) of `needle` in the haystack. -/
def findSub (needle : List Char) : List Char → Nat → Option Nat
  | [], off => if needle = [] then some off else none
  | c :: rest, off =>
    if needle.isPrefixOf (c :: rest) then some off
    else findSub needle rest (off + c.utf8Size)

/-- Byte offsets of all `'"'` characters in the haystack. -/
def quoteOffsets : List Char → Nat → List Nat
  | [], _ => []
  | c :: rest, off =>
    if c = '"' then off :: quoteOffsets rest (off + c.utf8Size)
    else quoteOffsets rest (off + c.utf8Size)

/-- Keyword boundary: `\b` holds after `kw` at the head of `s` (the char following the keyword,
if any, is not a word character). -/
def boundaryAfter (kw s : List Char) : Bool :=
  match s.drop kw.length with
  | [] => true
  | c :: _ => !(isWordChar c)

/-- Leftmost-first match of the keyword alternation `\b(kw1|…|kwn)\b`:
scan positions left to right; at a position with a non-word predecessor, the
first keyword of the alternation that matches followed by a boundary wins. -/
def findKeywords (kws : List (List Char)) : Option Char → List Char → Nat → Option (Nat × Nat)
  | _, [], _ => none
  | prev, c :: rest, off =>
    let prevOk := match prev with
      | some p => !(isWordChar p)
      | none => true
    match (if prevOk then kws.find? fun kw =>
        kw.isPrefixOf (c :: rest) && boundaryAfter kw (c :: rest) else none) with
    | some kw => some (off, off + byteLenL kw)
    | none => findKeywords kws (some c) rest (off + c.utf8Size)

/-- Leftmost match of `\b\d+\b`: a maximal digit run with non-word characters
(or ends) on both sides.  A run whose follower is a word character yields no
match at any position inside the run (every inner position has a digit, hence
word, predecessor), matching the regex backtracking behavior. -/
def findNumber : Option Char → List Char → Nat → Option (Nat × Nat)
  | _, [], _ => none
  | prev, c :: rest, off =>
    let prevOk := match prev with
      | some p => !(isWordChar p)
      | none => true
    if prevOk && c.isDigit then
      let ds := (c :: rest).takeWhile Char.isDigit
      let after := (c :: rest).dropWhile Char.isDigit
      if (match after with | [] => true | a :: _ => !(isWordChar a)) then
        some (off, off + byteLenL ds)
      else findNumber (some c) rest (off + c.utf8Size)
    else findNumber (some c) rest (off + c.utf8Size)

/-- Embeds `Regex::find` on a rule's pattern: leftmost match as `(start, end)` byte
offsets into the haystack, `none` when the pattern does not occur.  The
haystack is always a suffix of a single line, so `.*` runs to its end. -/
def ruleFind : RulePattern → List Char → Option (Nat × Nat)
  | .lineComment marker, s => (findSub marker s 0).map fun st => (st, byteLenL s)
  | .doubleQuotedString, s =>
    match quoteOffsets s 0 with
    | p1 :: p2 :: _ => some (p1, p2 + 1)
    | _ => none
  | .keywords kws, s => findKeywords kws none s 0
  | .number, s => findNumber none s 0

/-- The rule-probing loop of `highlight` (syntax.rs lines 149–165): try the
rules in order on the remaining slice; accept the first whose match starts at
offset `0` (a rule matching later does not stop the probing). -/
def firstMatchAt0 : List SyntaxRule → List Char → Option (SyntaxRule × Nat)
  | [], _ => none
  | r :: rest, s =>
    match ruleFind r.pattern s with
    | some (st, en) => if st = 0 then some (r, en) else firstMatchAt0 rest s
    | none => firstMatchAt0 rest s

/-- Rust `&line[pos..]`: the suffix of the line from byte offset `pos`, or
`none` (a panic) when `pos` is not on a character boundary or past the end. -/
def sliceFrom : List Char → Nat → Option (List Char)
  | l, 0 => some l
  | [], _ + 1 => none
  | c :: rest, pos + 1 =>
    if c.utf8Size ≤ pos + 1 then sliceFrom rest (pos + 1 - c.utf8Size) else none

/-- The position loop of `highlight` over one line (syntax.rs lines 144–170):
as long as `position < line.len()`, re-slice the line at the current BYTE
position (a panic — `none` — when that lands inside a multi-byte character),
probe the rules, and advance by the match length or by one byte.  Fuel
`byteLenL line + 1` bounds the iterations (the position strictly grows). -/
def hlLineLoop (rules : List SyntaxRule) (lineStart : Nat) (line : List Char) :
    Nat → Nat → List SyntaxToken → Option (List SyntaxToken)
  | 0, _, _ => none
  | fuel + 1, pos, acc =>
    if pos < byteLenL line then
      match sliceFrom line pos with
      | none => none
      | some remaining =>
        match firstMatchAt0 rules remaining with
        | some (r, len) =>
          hlLineLoop rules lineStart line fuel (pos + len)
            (acc ++ [(r.token_type, r.class_name, lineStart + pos, lineStart + pos + len)])
        | none => hlLineLoop rules lineStart line fuel (pos + 1) acc
    else some acc

/-- The line loop of `highlight` (syntax.rs lines 134–171), with the
`line_start` byte offset recomputed per line exactly as in the code. -/
def hlLinesLoop (rules : List SyntaxRule) (lines : List String) :
    List (Nat × String) → List SyntaxToken → Option (List SyntaxToken)
  | [], acc => some acc
  | (i, line) :: rest, acc =>
    let lineStart := if i = 0 then 0
      else ((lines.take i).map fun l => byteLen l + 1).sum
    match hlLineLoop rules lineStart line.toList (byteLenL line.toList + 1) 0 [] with
    | none => none
    | some toks => hlLinesLoop rules lines rest (acc ++ toks)

/-- Embeds `SyntaxHighlighter::highlight` (syntax.rs lines 129–174); `none` models a
panic.  (The `char_indices` vector built at lines 131–132 is never read by the
code and is omitted.) -/
def highlight (rules : List SyntaxRule) (text : String) : Option (List SyntaxToken) :=
  let lines := rustLines text
  hlLinesLoop rules lines lines.enum []

/-- One language's rule list from `LANGUAGE_DEFINITIONS`. -/
def mkLangRules (commentMarker : String) (kws : List String) : List SyntaxRule :=
  [ { pattern := .lineComment commentMarker.toList, token_type := "comment",
      class_name := "comment", priority := 90 },
    { pattern := .doubleQuotedString, token_type := "string",
      class_name := "string", priority := 80 },
    { pattern := .keywords (kws.map String.toList), token_type := "keyword",
      class_name := "keyword", priority := 70 },
    { pattern := .number, token_type := "number",
      class_name := "number", priority := 60 } ]

/-- Embeds `SyntaxHighlighter::new`: the rule table of `syntax.rs`; an unrecognized
language (there is no `"text"` entry) yields the empty rule list
(`unwrap_or_default`). -/
def syntaxRulesFor (language : String) : List SyntaxRule :=
  if language = "javascript" then
    mkLangRules "//" ["const", "let", "var", "function", "class", "if", "else",
      "for", "while", "return", "async", "await"]
  else if language = "python" then
    mkLangRules "#" ["def", "class", "if", "else", "elif", "for", "while",
      "return", "import", "from", "as", "async", "await"]
  else if language = "rust" then
    mkLangRules "//" ["fn", "let", "mut", "const", "if", "else", "for",
      "while", "loop", "match", "impl", "trait", "struct", "enum", "use",
      "pub", "mod"]
  else []

/-! ## The `diff.rs` data model and pipeline -/
/-- Embeds `DiffAlgorithm`.  All three variants dispatch to the Myers engine. -/
inductive DiffAlgorithm where
  | myers
  | patience
  | histogram
deriving DecidableEq, Repr

/-- Embeds `DiffOptions`. -/
structure DiffOptions where
  algorithm : DiffAlgorithm
  context_lines : Nat
  ignore_whitespace : Bool
  ignore_case : Bool
  semantic_diff : Bool
  syntax_highlight : Bool
  language : Option String
  word_diff : Bool
  line_numbers : Bool
  max_file_size : Nat
deriving DecidableEq, Repr

/-- Embeds `DiffOptions::default()`. -/
def defaultOptions : DiffOptions :=
  { algorithm := .myers, context_lines := 3, ignore_whitespace := false,
    ignore_case := false, semantic_diff := true, syntax_highlight := true,
    language := none, word_diff := false, line_numbers := true,
    max_file_size := 10 * 1024 * 1024 }

/-- Embeds `SemanticInfo` (`importance: f32` modelled as `Rat`).  The compute-diff
path never constructs one (`SemanticAnalyzer::analyze_changes` returns its
input unchanged). -/
structure SemanticInfo where
  entity_type : String
  entity_name : Option String
  scope : Option String
  importance : Rat
deriving DecidableEq, Repr

/-- Embeds `DiffChange`. -/
structure DiffChange where
  change_type : ChangeType
  old_line_number : Option Nat
  new_line_number : Option Nat
  content : String
  tokens : Option (List SyntaxToken)
  semantic_info : Option SemanticInfo
deriving DecidableEq, Repr

/-- Embeds `DiffHunk`. -/
structure DiffHunk where
  old_start : Nat
  old_lines : Nat
  new_start : Nat
  new_lines : Nat
  changes : List DiffChange
  header : String
deriving DecidableEq, Repr

/-- Embeds `DiffStats` (`similarity: f32` modelled as `Rat`). -/
structure DiffStats where
  total_lines : Nat
  added_lines : Nat
  removed_lines : Nat
  modified_lines : Nat
  unchanged_lines : Nat
  similarity : Rat
deriving DecidableEq, Repr

/-- Embeds `DiffError`. -/
inductive DiffError where
  | fileTooLarge
  | invalidEncoding
  | algorithmError (msg : String)
  | syntaxError (msg : String)
deriving DecidableEq, Repr

/-- Embeds `DiffResult`. -/
structure DiffResult where
  hunks : List DiffHunk
  stats : DiffStats
  file_language : Option String
  is_binary : Bool
  is_large_file : Bool
deriving DecidableEq, Repr

/-- Embeds `create_new_hunk` (diff.rs lines 304–314).  Note the header uses the raw
`new_start + 1` where the field uses the context-adjusted value, exactly as in
the code. -/
def createNewHunk (oldStart newStart contextLines : Nat) : DiffHunk :=
  let start := oldStart - contextLines
  { old_start := start + 1, old_lines := 0,
    new_start := newStart - contextLines + 1, new_lines := 0,
    changes := [],
    header := "@@ -" ++ Nat.repr (start + 1) ++ ",0 +" ++
      Nat.repr (newStart + 1) ++ ",0 @@" }

/-- The record pushed by `create_hunks` for a non-Unchanged raw change
(diff.rs lines 271–292); out-of-range content lookups yield `""`
(`unwrap_or("")`). -/
def mkHunkChange (A B : List String) (ct : ChangeType) (oldIdx newIdx : Nat) : DiffChange :=
  { change_type := ct,
    old_line_number := if ct ≠ .added then some (oldIdx + 1) else none,
    new_line_number := if ct ≠ .removed then some (newIdx + 1) else none,
    content := match ct with
      | .removed => A.getD oldIdx ""
      | .added => B.getD newIdx ""
      | _ => "",
    tokens := none,
    semantic_info := none }

/-- The loop of `create_hunks` (diff.rs lines 254–294), carried state:
the enumeration index `i`, `last_change_idx`, the optional current hunk and
the flushed hunks.  Unchanged raw changes are never pushed into a hunk; they
only drive the hunk-break test `i - last_change_idx > context_lines * 2`. -/
def createHunksLoop (A B : List String) (contextLines : Nat) :
    List RawChange → Nat → Nat → Option DiffHunk → List DiffHunk → List DiffHunk
  | [], _i, _last, cur, hunks => hunks ++ cur.toList
  | (ct, oldIdx, newIdx) :: rest, i, last, cur, hunks =>
    let shouldStart := cur.isNone ∨ (ct = .unchanged ∧ contextLines * 2 < i - last)
    let hunks1 := if shouldStart ∧ cur.isSome then hunks ++ cur.toList else hunks
    let cur1 : Option DiffHunk := if shouldStart ∧ cur.isSome then none else cur
    if ct = .unchanged then
      createHunksLoop A B contextLines rest (i + 1) last cur1 hunks1
    else
      let base := match cur1 with
        | none => createNewHunk oldIdx newIdx contextLines
        | some h => h
      createHunksLoop A B contextLines rest (i + 1) i
        (some { base with changes := base.changes ++ [mkHunkChange A B ct oldIdx newIdx] })
        hunks1

/-- Embeds `create_hunks` (diff.rs lines 244–301); the Rust `Result` wrapper is
dropped because the function never errors. -/
def createHunks (changes : List RawChange) (A B : List String) (o : DiffOptions) :
    List DiffHunk :=
  createHunksLoop A B o.context_lines changes 0 0 none []

/-- All change records of a hunk list, in order. -/
def hunksChanges (hunks : List DiffHunk) : List DiffChange :=
  (hunks.map DiffHunk.changes).flatten

/-- Embeds `calculate_stats` (diff.rs lines 338–370): the nested counting loops are
the `countP` of the concatenated change lists; the `f32` similarity with its
`.max(0.0).min(1.0)` clamp is modelled as an exact `Rat`. -/
def calculateStats (hunks : List DiffHunk) (oldTotal newTotal : Nat) : DiffStats :=
  let cs := hunksChanges hunks
  let added := cs.countP fun c => decide (c.change_type = .added)
  let removed := cs.countP fun c => decide (c.change_type = .removed)
  let modified := cs.countP fun c => decide (c.change_type = .modified)
  let totalChanges := added + removed + modified
  let totalLines := max oldTotal newTotal
  let similarity : Rat :=
    if 0 < totalLines then 1 - (totalChanges : Rat) / (totalLines : Rat) else 1
  { total_lines := totalLines, added_lines := added, removed_lines := removed,
    modified_lines := modified, unchanged_lines := totalLines - totalChanges,
    similarity := min (max similarity 0) 1 }

/-- Embeds `normalize_whitespace` (diff.rs lines 235–241); `String.trim` models Rust
`str::trim` (the inputs of interest are ASCII, where the two agree). -/
def normalizeWhitespace (text : String) : String :=
  String.intercalate "\n" (((rustLines text).map String.trim).filter fun l => l ≠ "")

/-- Rust `str::to_lowercase`, modelled per-char (exact on ASCII; the claims
are insensitive to the mapping on other characters). -/
def lowercaseStr (s : String) : String := String.mk (s.toList.map Char.toLower)

/-- Embeds `preprocess_text` (diff.rs lines 217–232). -/
def preprocessText (oldText newText : String) (o : DiffOptions) : String × String :=
  let old1 := if o.ignore_whitespace then normalizeWhitespace oldText else oldText
  let new1 := if o.ignore_whitespace then normalizeWhitespace newText else newText
  let old2 := if o.ignore_case then lowercaseStr old1 else old1
  let new2 := if o.ignore_case then lowercaseStr new1 else new1
  (old2, new2)

/-- Rust `str::contains` for string needles. -/
def containsStr (hay needle : String) : Bool := listContains needle.toList hay.toList

/-- Embeds `detect_language` from `diff.rs` (lines 373–390). -/
def detectLanguageDiff (oldText newText : String) (hint : Option String) : Option String :=
  match hint with
  | some lang => some lang
  | none =>
    let content := if newText ≠ "" then newText else oldText
    if containsStr content "fn " && containsStr content "let " then some "rust"
    else if containsStr content "function" || containsStr content "const " then
      some "javascript"
    else if containsStr content "def " && containsStr content "import " then
      some "python"
    else none

/-- Embeds `is_binary` (diff.rs lines 393–395): some byte is NUL, equivalently some
char is `U+0000`. -/
def isBinary (text : String) : Bool := text.toList.any fun c => c = Char.ofNat 0

/-- The function `SemanticAnalyzer::analyze_changes` (semantic.rs lines 165–175) returns
the change list unchanged. -/
def analyzeChanges (changes : List RawChange) (_A _B : List String) : List RawChange :=
  changes

/-- Embeds `apply_syntax_highlighting` (diff.rs lines 317–335): with a language hint,
highlight every change whose content is nonempty; `none` propagates a
highlighter panic.  (`SyntaxHighlighter::new` of `syntax.rs` is infallible;
the `map_err` in `diff.rs` has no error to map.) -/
def highlightChange (rules : List SyntaxRule) (c : DiffChange) : Option DiffChange :=
  if c.content ≠ "" then
    (highlight rules c.content).map fun toks => { c with tokens := some toks }
  else some c

/-- The inner `for change in &mut hunk.changes` loop of
`apply_syntax_highlighting`. -/
def highlightChanges (rules : List SyntaxRule) : List DiffChange → Option (List DiffChange)
  | [] => some []
  | c :: rest =>
    match highlightChange rules c, highlightChanges rules rest with
    | some c', some rest' => some (c' :: rest')
    | _, _ => none

/-- The outer `for hunk in &mut hunks` loop of `apply_syntax_highlighting`. -/
def highlightHunks (rules : List SyntaxRule) : List DiffHunk → Option (List DiffHunk)
  | [] => some []
  | h :: rest =>
    match highlightChanges rules h.changes, highlightHunks rules rest with
    | some cs, some rest' => some ({ h with changes := cs } :: rest')
    | _, _ => none

def applySyntaxHighlighting (hunks : List DiffHunk) (language : Option String) :
    Option (List DiffHunk) :=
  match language with
  | none => some hunks
  | some lang => highlightHunks (syntaxRulesFor lang) hunks

/-- The tail of `compute_diff` (diff.rs lines 197–213): the optional
highlighting pass followed by the assembly of the `DiffResult`; `none` models
a highlighter panic. -/
def assembleResult (oldText newText : String) (o : DiffOptions) (A B : List String)
    (hunks : List DiffHunk) : Option (Except DiffError DiffResult) :=
  match (if o.syntax_highlight then applySyntaxHighlighting hunks o.language
    else some hunks) with
  | none => none
  | some hh =>
    some (.ok {
      hunks := hh,
      stats := calculateStats hh A.length B.length,
      file_language := detectLanguageDiff oldText newText o.language,
      is_binary := isBinary oldText || isBinary newText,
      is_large_file :=
        decide (1024 * 1024 < byteLen oldText) ||
        decide (1024 * 1024 < byteLen newText) })

/-- The algorithm dispatch of `compute_diff` (diff.rs lines 169–184): the
`Patience` and `Histogram` arms fall back to Myers. -/
def runAlgorithm (alg : DiffAlgorithm) (A B : List String) : List RawChange :=
  match alg with
  | .myers => myersComputeDiff A B
  | .patience => myersComputeDiff A B
  | .histogram => myersComputeDiff A B

/-- Embeds `compute_diff` (diff.rs lines 151–214).  The outer `Option` models a
panic inside the pipeline (`none`); the `Except` layer carries `DiffError`. -/
def computeDiff (oldText newText : String) (o : DiffOptions) :
    Option (Except DiffError DiffResult) :=
  if o.max_file_size < byteLen oldText ∨ o.max_file_size < byteLen newText then
    some (.error .fileTooLarge)
  else
    let p := preprocessText oldText newText o
    let A := rustLines p.1
    let B := rustLines p.2
    let raw := runAlgorithm o.algorithm A B
    let cs := if o.semantic_diff then analyzeChanges raw A B else raw
    assembleResult oldText newText o A B (createHunks cs A B o)

/-! ## Streaming (`streaming.rs`) -/
/-- Embeds `StreamingError`. -/
inductive StreamingError where
  | invalidState (msg : String)
  | bufferOverflow
  | encodingError
deriving DecidableEq, Repr

/-- Embeds `StreamingState`.  (`Processing` is declared in the Rust enum but never
assigned.) -/
inductive StreamingState where
  | receivingOld
  | receivingNew
  | processing
  | finalized
deriving DecidableEq, Repr

/-- Embeds `LineBuffer`. -/
structure LineBuffer where
  lines : List String
  total_size : Nat
  max_size : Nat
deriving DecidableEq, Repr

/-- Embeds `LineBuffer::new`. -/
def LineBuffer.new (maxSize : Nat) : LineBuffer :=
  { lines := [], total_size := 0, max_size := maxSize }

/-- Replace the last element (`Vec::back_mut`). -/
def modifyLast (f : String → String) : List String → List String
  | [] => []
  | [a] => [f a]
  | a :: b :: rest => a :: modifyLast f (b :: rest)

/-- Embeds `LineBuffer::add_chunk` (streaming.rs lines 61–94): reject the chunk with
`BufferOverflow` — leaving the buffer untouched — when the accumulated byte
count plus the chunk length would exceed the cap; otherwise split on
newlines, append the first piece to the last buffered line when the chunk
continues it, and append a final empty line after a chunk that ends in a
newline. -/
def LineBuffer.addChunk (b : LineBuffer) (chunk : String) :
    Except StreamingError LineBuffer :=
  let chunkSize := byteLen chunk
  if b.max_size < b.total_size + chunkSize then .error .bufferOverflow
  else
    let ls := rustLines chunk
    let continued := b.lines ≠ [] ∧ chunk.data.head? ≠ some '\n'
    let merged : List String × List String :=
      if continued then
        match ls with
        | first :: restL => (modifyLast (· ++ first) b.lines, restL)
        | [] => (b.lines, [])
      else (b.lines, ls)
    let lines2 := merged.1 ++ merged.2
    let lines3 :=
      if chunk.data.getLast? ≠ some '\n' ∧ containsStr chunk "\n" then lines2
      else if chunk.data.getLast? = some '\n' ∧ lines2 ≠ [] then lines2 ++ [""]
      else lines2
    .ok { lines := lines3, total_size := b.total_size + chunkSize,
          max_size := b.max_size }

/-- Embeds `StreamingDiff`. -/
structure StreamingDiff where
  options : DiffOptions
  old_buffer : LineBuffer
  new_buffer : LineBuffer
  processed_old_lines : Nat
  processed_new_lines : Nat
  current_hunks : List DiffHunk
  state : StreamingState
deriving DecidableEq, Repr

/-- Embeds `StreamingDiff::new` (streaming.rs lines 117–129): each side's cap is
`max_file_size / 2`. -/
def StreamingDiff.new (options : DiffOptions) : StreamingDiff :=
  let maxBufferSize := options.max_file_size / 2
  { options := options,
    old_buffer := LineBuffer.new maxBufferSize,
    new_buffer := LineBuffer.new maxBufferSize,
    processed_old_lines := 0,
    processed_new_lines := 0,
    current_hunks := [],
    state := .receivingOld }

/-- Embeds `StreamingDiff::add_old_chunk` (lines 132–141). -/
def StreamingDiff.addOldChunk (s : StreamingDiff) (chunk : String) :
    Except StreamingError Unit × StreamingDiff :=
  if s.state ≠ .receivingOld then
    (.error (.invalidState "Not in old file receiving state"), s)
  else
    match s.old_buffer.addChunk chunk with
    | .error e => (.error e, s)
    | .ok b => (.ok (), { s with old_buffer := b })

/-- Embeds `StreamingDiff::start_new_file` (lines 144–153). -/
def StreamingDiff.startNewFile (s : StreamingDiff) :
    Except StreamingError Unit × StreamingDiff :=
  if s.state ≠ .receivingOld then
    (.error (.invalidState "Can only transition from old file state"), s)
  else (.ok (), { s with state := .receivingNew })

/-- Embeds `StreamingDiff::should_process_chunk` (lines 174–179). -/
def StreamingDiff.shouldProcessChunk (s : StreamingDiff) : Bool :=
  decide (1000 < s.old_buffer.lines.length) ||
  decide (1000 < s.new_buffer.lines.length) ||
  decide (s.old_buffer.max_size / 2 < s.old_buffer.total_size) ||
  decide (s.new_buffer.max_size / 2 < s.new_buffer.total_size)

/-- Embeds `Display` rendering of a `DiffError`, as interpolated by
`StreamingError::InvalidState(e.to_string())`. -/
def diffErrorMessage : DiffError → String
  | .fileTooLarge => "File is too large to process"
  | .invalidEncoding => "Invalid text encoding"
  | .algorithmError msg => "Diff algorithm error: " ++ msg
  | .syntaxError msg => "Syntax highlighting error: " ++ msg

/-- Embeds `StreamingDiff::process_available_chunks` (lines 182–222): run the full
`compute_diff` pipeline on up to 1000 lines from each buffer head, rebase the
hunk starts and per-change line numbers by the processed-line counters,
append to the accumulator and drain the processed prefixes.  The outer
`Option` propagates a pipeline panic. -/
def StreamingDiff.processAvailableChunks (s : StreamingDiff) :
    Option (Except StreamingError Unit × StreamingDiff) :=
  let chunkSize := 1000
  let oldLines := s.old_buffer.lines.take (min chunkSize s.old_buffer.lines.length)
  let newLines := s.new_buffer.lines.take (min chunkSize s.new_buffer.lines.length)
  match computeDiff (String.intercalate "\n" oldLines)
      (String.intercalate "\n" newLines) s.options with
  | none => none
  | some (.error e) => some (.error (.invalidState (diffErrorMessage e)), s)
  | some (.ok res) =>
    let adjusted := res.hunks.map fun h =>
      { h with
        old_start := h.old_start + s.processed_old_lines,
        new_start := h.new_start + s.processed_new_lines,
        changes := h.changes.map fun c =>
          { c with
            old_line_number := c.old_line_number.map (· + s.processed_old_lines),
            new_line_number := c.new_line_number.map (· + s.processed_new_lines) } }
    some (.ok (),
      { s with
        current_hunks := s.current_hunks ++ adjusted,
        processed_old_lines := s.processed_old_lines + oldLines.length,
        processed_new_lines := s.processed_new_lines + newLines.length,
        old_buffer := { s.old_buffer with
          lines := s.old_buffer.lines.drop
            (min oldLines.length s.old_buffer.lines.length) },
        new_buffer := { s.new_buffer with
          lines := s.new_buffer.lines.drop
            (min newLines.length s.new_buffer.lines.length) } })

/-- Embeds `StreamingDiff::add_new_chunk` (lines 156–171). -/
def StreamingDiff.addNewChunk (s : StreamingDiff) (chunk : String) :
    Option (Except StreamingError Unit × StreamingDiff) :=
  if s.state ≠ .receivingNew then
    some (.error (.invalidState "Not in new file receiving state"), s)
  else
    match s.new_buffer.addChunk chunk with
    | .error e => some (.error e, s)
    | .ok b =>
      let s1 := { s with new_buffer := b }
      if s1.shouldProcessChunk then s1.processAvailableChunks
      else some (.ok (), s1)

/-- Embeds `StreamingDiff::calculate_stats` (lines 263–295). -/
def StreamingDiff.calculateStreamStats (s : StreamingDiff) : DiffStats :=
  let cs := hunksChanges s.current_hunks
  let added := cs.countP fun c => decide (c.change_type = .added)
  let removed := cs.countP fun c => decide (c.change_type = .removed)
  let modified := cs.countP fun c => decide (c.change_type = .modified)
  let totalLines := max s.processed_old_lines s.processed_new_lines
  let totalChanges := added + removed + modified
  let similarity : Rat :=
    if 0 < totalLines then 1 - (totalChanges : Rat) / (totalLines : Rat) else 1
  { total_lines := totalLines, added_lines := added, removed_lines := removed,
    modified_lines := modified, unchanged_lines := totalLines - totalChanges,
    similarity := min (max similarity 0) 1 }

/-- Embeds `StreamingDiff::finalize` (lines 225–249): rejected with `InvalidState`
only in the `Finalized` state — in particular it is allowed while still in
`ReceivingOld` — flushes nonempty buffers through one more pipeline run,
moves to `Finalized` and empties the accumulator (`mem::take`). -/
def StreamingDiff.finalize (s : StreamingDiff) :
    Option (Except StreamingError DiffResult × StreamingDiff) :=
  if s.state = .finalized then
    some (.error (.invalidState "Already finalized"), s)
  else
    match (if s.old_buffer.lines ≠ [] ∨ s.new_buffer.lines ≠ [] then
      s.processAvailableChunks
    else some (.ok (), s)) with
    | none => none
    | some (.error e, s1) => some (.error e, s1)
    | some (.ok _, s1) =>
      let s2 := { s1 with state := .finalized }
      some (.ok {
          hunks := s2.current_hunks,
          stats := s2.calculateStreamStats,
          file_language := s2.options.language,
          is_binary := false,
          is_large_file := true },
        { s2 with current_hunks := [] })

/-- Embeds `StreamingDiff::get_intermediate_result` (lines 252–260). -/
def StreamingDiff.getIntermediateResult (s : StreamingDiff) : DiffResult :=
  { hunks := s.current_hunks,
    stats := s.calculateStreamStats,
    file_language := s.options.language,
    is_binary := false,
    is_large_file := true }

/-! ## Definitions used only to state the claims -/
/-- Application of an edit script to the old line sequence, as the claims
state it: an `Unchanged` edit keeps one (old) line, `Removed` drops one old
line, `Added` inserts one new line, and `Modified` replaces one old line by
one new line; the reconstruction is the sequence of kept/inserted lines in
emission order. -/
def applyEdit (A B : List String) (c : RawChange) : Option String :=
  match c.1 with
  | .unchanged => some (A.getD c.2.1 "")
  | .added => some (B.getD c.2.2 "")
  | .modified => some (B.getD c.2.2 "")
  | .removed => none

def applyEditScript (A B : List String) (script : List RawChange) : List String :=
  script.filterMap (applyEdit A B)

/-- Modelled from the spec: the textbook character-level Levenshtein distance
with unit costs and no transpositions, used only to state what the spec's
similarity predicate demands (the code's `levenshtein_distance` is
`levenshteinDistance` above).  Fuel `|s| + |t| + 1` bounds the recursion
depth. -/
def charLevenshteinAux : Nat → List Char → List Char → Nat
  | 0, s, t => s.length + t.length
  | _ + 1, [], t => t.length
  | _ + 1, s, [] => s.length
  | fuel + 1, a :: s, b :: t =>
    if a = b then charLevenshteinAux fuel s t
    else 1 + min (charLevenshteinAux fuel s t)
      (min (charLevenshteinAux fuel (a :: s) t) (charLevenshteinAux fuel s (b :: t)))

/-- Modelled from the spec: character-level Levenshtein distance. -/
def charLevenshtein (s t : String) : Nat :=
  charLevenshteinAux (s.length + t.length + 1) s.toList t.toList

/-- Modelled from the spec: the claimed similarity predicate — `true` iff
`max(|a|,|b|) = 0` or `1 − Levenshtein(a,b) / max(|a|,|b|) > 0.5` with the
character-level distance (in exact arithmetic, `2·d < max`). -/
def claimCharSimilar (a b : String) : Bool :=
  let d := charLevenshtein a b
  let m := max a.length b.length
  decide (m = 0) || decide (2 * d < m)

/-- The record built by `create_hunks` for a raw change, `none` for
`Unchanged` (which `create_hunks` never pushes). -/
def rawToRecord (A B : List String) (c : RawChange) : Option DiffChange :=
  if c.1 = .unchanged then none else some (mkHunkChange A B c.1 c.2.1 c.2.2)

/-- Boolean check on the `Ok` payload of a `compute_diff` outcome; vacuously
true on an error or a panic. -/
def resultSat (f : DiffResult → Bool) : Option (Except DiffError DiffResult) → Bool
  | some (.ok r) => f r
  | _ => true

/-- Every `Modified` record carries the empty content. -/
def modifiedContentsEmpty (r : DiffResult) : Bool :=
  r.hunks.all fun h => h.changes.all fun c =>
    !(decide (c.change_type = .modified)) || decide (c.content = "")

/-- Every hunk has `old_lines = 0` and `new_lines = 0`. -/
def hunkCountersZero (r : DiffResult) : Bool :=
  r.hunks.all fun h => decide (h.old_lines = 0) && decide (h.new_lines = 0)

/-- No hunk carries an `Unchanged` record. -/
def noUnchangedRecords (r : DiffResult) : Bool :=
  r.hunks.all fun h => h.changes.all fun c => !(decide (c.change_type = .unchanged))

/-- Projection of the `(added, removed, modified)` statistics of a successful
outcome. -/
def statsTriple (res : Option (Except DiffError DiffResult)) : Option (Nat × Nat × Nat) :=
  match res with
  | some (.ok r) => some (r.stats.added_lines, r.stats.removed_lines, r.stats.modified_lines)
  | _ => none

/-- Asserts `finalize` returned `Ok`. -/
def finalizeOk (s : StreamingDiff) : Bool :=
  match s.finalize with
  | some (.ok _, _) => true
  | _ => false

/-- The result of a streaming call is an `InvalidState` error. -/
def isInvalidStateErr {α : Type} : Except StreamingError α → Bool
  | .error (.invalidState _) => true
  | _ => false

/-- The result of a streaming call is `Ok`. -/
def isOkRes {α : Type} : Except StreamingError α → Bool
  | .ok _ => true
  | _ => false

/-- Check used by the C2 counterexample: the sole hunk of
`compute_diff("", "p\nq")` reports `new_lines = 0` while two of its records
carry a `new_line_number`. -/
def c2Check (res : Option (Except DiffError DiffResult)) : Bool :=
  match res with
  | some (.ok r) =>
    decide ((r.hunks.map fun h =>
      (h.new_lines, h.changes.countP fun c => c.new_line_number.isSome)) = [(0, 2)])
  | _ => false

/-- Check used by the C6 counterexample: the outcome succeeded, produced at
least one change record, and no record anywhere is `Unchanged`. -/
def c6Check (res : Option (Except DiffError DiffResult)) : Bool :=
  match res with
  | some (.ok r) =>
    decide (hunksChanges r.hunks ≠ []) &&
    (r.hunks.all fun h => h.changes.all fun c => !(decide (c.change_type = .unchanged)))
  | _ => false

/-- The conjunction of state-machine facts for the amended C7: each call is
checked against the state it was made in. -/
def c7Check (s : StreamingDiff) (chunk : String) : Bool :=
  (if s.state ≠ .receivingOld then isInvalidStateErr (s.addOldChunk chunk).1 else true) &&
  (if isOkRes (s.addOldChunk chunk).1 then decide (s.state = .receivingOld) else true) &&
  (if s.state ≠ .receivingOld then isInvalidStateErr s.startNewFile.1
   else decide (s.startNewFile.2.state = .receivingNew)) &&
  (match s.addNewChunk chunk with
   | some (r, _) =>
     (if s.state ≠ .receivingNew then isInvalidStateErr r else true) &&
     (if isOkRes r then decide (s.state = .receivingNew) else true)
   | none => true) &&
  (if s.state = .finalized then
    (match s.finalize with
     | some (r, s2) => isInvalidStateErr r && decide (s2 = s)
     | none => false)
   else true) &&
  (match s.finalize with
   | some (.ok _, s2) => decide (s2.state = .finalized)
   | _ => true) &&
  finalizeOk (StreamingDiff.new s.options)

/-- The `2^64` `Added` edits emitted for the spurious `Right` move. -/
def addedRun : List RawChange :=
  (List.range' 0 USIZE).map fun j => ((.added : ChangeType), 0, j)

/-- The coalesced edit stream of `compute_diff("a\nb\nc", "a\nx\nc")`:
`2^64` spurious `Added` edits, the `a` snake line, the removal of `b`, and
the `c` snake line (the `x` insertion is swallowed by the spurious run). -/
def abcTail : List RawChange :=
  [(.unchanged, 0, USIZE), (.removed, 1, USIZE + 1), (.unchanged, 2, USIZE + 1)]

/-- The hunks `compute_diff("a\nb\nc", "a\nx\nc")` assembles. -/
def abcHunks : List DiffHunk :=
  createHunks (addedRun ++ abcTail) ["a", "b", "c"] ["a", "x", "c"] defaultOptions

/-! ## Theorems -/

/-! ## General lemmas: hunk assembly -/
theorem hunksChanges_append (a b : List DiffHunk) :
    hunksChanges (a ++ b) = hunksChanges a ++ hunksChanges b := by
  simp [hunksChanges]

theorem hunksChanges_toList (cur : Option DiffHunk) :
    hunksChanges cur.toList = cur.elim [] DiffHunk.changes := by
  cases cur <;> simp [hunksChanges]

theorem hunksChanges_singleton (h : DiffHunk) : hunksChanges [h] = h.changes := by
  simp [hunksChanges]

/-- The records accumulated by the `create_hunks` loop are exactly the
non-`Unchanged` raw changes, translated by `rawToRecord`, appended to what
the state already holds: `Unchanged` edits contribute nothing. -/
theorem createHunksLoop_changes (A B : List String) (ctx : Nat) :
    ∀ (cs : List RawChange) (i last : Nat) (cur : Option DiffHunk) (hunks : List DiffHunk),
    hunksChanges (createHunksLoop A B ctx cs i last cur hunks) =
      hunksChanges hunks ++ cur.elim [] DiffHunk.changes ++ cs.filterMap (rawToRecord A B)
  | [], i, last, cur, hunks => by
    simp [createHunksLoop, hunksChanges_append, hunksChanges_toList]
  | (ct, oldIdx, newIdx) :: rest, i, last, cur, hunks => by
    by_cases hct : ct = .unchanged
    · subst hct
      cases cur with
      | none =>
        simp [createHunksLoop, createHunksLoop_changes A B ctx rest, rawToRecord]
      | some h =>
        by_cases hgap : ctx * 2 < i - last
        · simp [createHunksLoop, createHunksLoop_changes A B ctx rest, rawToRecord, hgap,
            hunksChanges_append, hunksChanges_singleton]
        · simp [createHunksLoop, createHunksLoop_changes A B ctx rest, rawToRecord, hgap,
            hunksChanges_append, hunksChanges_toList]
    · cases cur with
      | none =>
        simp [createHunksLoop, createHunksLoop_changes A B ctx rest, rawToRecord, hct,
          createNewHunk]
      | some h =>
        simp [createHunksLoop, createHunksLoop_changes A B ctx rest, rawToRecord, hct]

/-- The function `create_hunks` as a whole: its hunks' records, concatenated, are exactly
the translated non-`Unchanged` raw edits. -/
theorem createHunks_changes (changes : List RawChange) (A B : List String) (o : DiffOptions) :
    hunksChanges (createHunks changes A B o) = changes.filterMap (rawToRecord A B) := by
  have h0 : hunksChanges [] = [] := rfl
  simp [createHunks, createHunksLoop_changes, h0]

/-- What `rawToRecord` guarantees about a produced record. -/
theorem rawToRecord_some {A B : List String} {c : RawChange} {r : DiffChange}
    (h : rawToRecord A B c = some r) :
    r.change_type = c.1 ∧ c.1 ≠ .unchanged ∧ (c.1 = .modified → r.content = "") := by
  unfold rawToRecord at h
  split at h
  · exact absurd h (by simp)
  · next hne =>
    obtain rfl : mkHunkChange A B c.1 c.2.1 c.2.2 = r := by simpa using h
    refine ⟨rfl, hne, fun hm => ?_⟩
    simp [mkHunkChange, hm]

/-- Every hunk the `create_hunks` loop can produce keeps the `old_lines` and
`new_lines` counters at their initial `0`: no code path ever updates them. -/
theorem createHunksLoop_counters (A B : List String) (ctx : Nat) :
    ∀ (cs : List RawChange) (i last : Nat) (cur : Option DiffHunk) (hunks : List DiffHunk),
    (∀ h ∈ hunks, h.old_lines = 0 ∧ h.new_lines = 0) →
    (∀ h, cur = some h → h.old_lines = 0 ∧ h.new_lines = 0) →
    ∀ h ∈ createHunksLoop A B ctx cs i last cur hunks, h.old_lines = 0 ∧ h.new_lines = 0
  | [], i, last, cur, hunks, hh, hc => by
    cases cur with
    | none => simpa [createHunksLoop] using hh
    | some g =>
      intro h hmem
      simp [createHunksLoop] at hmem
      rcases hmem with hmem | rfl
      · exact hh h hmem
      · exact hc h rfl
  | (ct, oldIdx, newIdx) :: rest, i, last, cur, hunks, hh, hc => by
    by_cases hct : ct = .unchanged
    · subst hct
      cases cur with
      | none =>
        intro h hmem
        simp only [createHunksLoop] at hmem
        refine createHunksLoop_counters A B ctx rest _ _ _ _ ?_ ?_ h (by simpa using hmem)
        · simpa using hh
        · intro h2 heq
          simp at heq
      | some g =>
        by_cases hgap : ctx * 2 < i - last
        · intro h hmem
          simp only [createHunksLoop] at hmem
          refine createHunksLoop_counters A B ctx rest _ _ _ _ ?_ ?_ h (by
            simpa [hgap] using hmem)
          · intro h2 hmem2
            simp [hgap] at hmem2
            rcases hmem2 with hmem2 | rfl
            · exact hh h2 hmem2
            · exact hc h2 rfl
          · simp [hgap]
        · intro h hmem
          simp only [createHunksLoop] at hmem
          refine createHunksLoop_counters A B ctx rest _ _ _ _ ?_ ?_ h (by
            simpa [hgap] using hmem)
          · intro h2 hmem2
            simpa [hgap] using hh h2 (by simpa [hgap] using hmem2)
          · intro h2 heq
            simp [hgap] at heq
            exact hc h2 (by rw [heq])
    · cases cur with
      | none =>
        intro h hmem
        simp only [createHunksLoop] at hmem
        refine createHunksLoop_counters A B ctx rest _ _ _ _ ?_ ?_ h (by
          simpa [hct] using hmem)
        · simpa using hh
        · intro h2 heq
          simp [hct] at heq
          rw [← heq]
          simp [createNewHunk]
      | some g =>
        intro h hmem
        simp only [createHunksLoop] at hmem
        refine createHunksLoop_counters A B ctx rest _ _ _ _ ?_ ?_ h (by
          simpa [hct] using hmem)
        · simpa using hh
        · intro h2 heq
          simp [hct] at heq
          rw [← heq]
          simpa using hc g rfl

/-! ## General lemmas: the decorator pass preserves record structure -/
theorem highlightChange_fields {rules : List SyntaxRule} {c c' : DiffChange}
    (h : highlightChange rules c = some c') :
    c' = { c with tokens := c'.tokens } := by
  unfold highlightChange at h
  split at h
  · cases hm : highlight rules c.content with
    | none => rw [hm] at h; simp at h
    | some toks =>
      rw [hm] at h
      simp at h
      rw [← h]
  · obtain rfl := Option.some.inj h
    rfl

theorem highlightChanges_all {rules : List SyntaxRule} (Q : DiffChange → Bool)
    (hQtok : ∀ (c : DiffChange) (t : Option (List SyntaxToken)),
      Q c = true → Q { c with tokens := t } = true) :
    ∀ {cs cs' : List DiffChange}, highlightChanges rules cs = some cs' →
      cs.all Q = true → cs'.all Q = true
  | [], cs', h, _ => by
    simp only [highlightChanges] at h
    obtain rfl := Option.some.inj h
    rfl
  | c :: rest, cs', h, hall => by
    simp only [highlightChanges] at h
    split at h
    · next c2 rest2 hc hrest =>
      obtain rfl := Option.some.inj h
      simp only [List.all_cons, Bool.and_eq_true] at hall ⊢
      refine ⟨?_, highlightChanges_all Q hQtok hrest hall.2⟩
      have := highlightChange_fields hc
      rw [this]
      exact hQtok c c2.tokens hall.1
    · exact absurd h (by simp)

theorem highlightHunks_all {rules : List SyntaxRule} (Q : DiffChange → Bool)
    (hQtok : ∀ (c : DiffChange) (t : Option (List SyntaxToken)),
      Q c = true → Q { c with tokens := t } = true) :
    ∀ {hs hs' : List DiffHunk}, highlightHunks rules hs = some hs' →
      (hs.all fun h => h.changes.all Q) = true →
      (hs'.all fun h => h.changes.all Q) = true
  | [], hs', h, _ => by
    simp only [highlightHunks] at h
    obtain rfl := Option.some.inj h
    rfl
  | g :: rest, hs', h, hall => by
    simp only [highlightHunks] at h
    split at h
    · next cs2 rest2 hcs hrest =>
      obtain rfl := Option.some.inj h
      simp only [List.all_cons, Bool.and_eq_true] at hall ⊢
      exact ⟨highlightChanges_all Q hQtok hcs hall.1,
        highlightHunks_all Q hQtok hrest hall.2⟩
    · exact absurd h (by simp)

theorem highlightHunks_counters {rules : List SyntaxRule} :
    ∀ {hs hs' : List DiffHunk}, highlightHunks rules hs = some hs' →
      (hs.all fun h => decide (h.old_lines = 0) && decide (h.new_lines = 0)) = true →
      (hs'.all fun h => decide (h.old_lines = 0) && decide (h.new_lines = 0)) = true
  | [], hs', h, _ => by
    simp only [highlightHunks] at h
    obtain rfl := Option.some.inj h
    rfl
  | g :: rest, hs', h, hall => by
    simp only [highlightHunks] at h
    split at h
    · next cs2 rest2 hcs hrest =>
      obtain rfl := Option.some.inj h
      simp only [List.all_cons, Bool.and_eq_true] at hall ⊢
      exact ⟨hall.1, highlightHunks_counters hrest hall.2⟩
    · exact absurd h (by simp)

/-- Turn a pointwise fact on `hunksChanges` into the nested `all`. -/
theorem all_changes_of_hunksChanges (Q : DiffChange → Bool) (hs : List DiffHunk)
    (h : ∀ c ∈ hunksChanges hs, Q c = true) :
    (hs.all fun g => g.changes.all Q) = true := by
  simp only [List.all_eq_true]
  intro g hmem c cmem
  refine h c ?_
  simp only [hunksChanges, List.mem_flatten, List.mem_map]
  exact ⟨g.changes, ⟨g, hmem, rfl⟩, cmem⟩

/-- The assembly tail preserves a record-level predicate that is insensitive
to the `tokens` field. -/
theorem assembleResult_all (Q : DiffChange → Bool)
    (hQtok : ∀ (c : DiffChange) (t : Option (List SyntaxToken)),
      Q c = true → Q { c with tokens := t } = true)
    (oldText newText : String) (o : DiffOptions) (A B : List String)
    (hunks : List DiffHunk)
    (hbase : (hunks.all fun h => h.changes.all Q) = true) :
    resultSat (fun r => r.hunks.all fun h => h.changes.all Q)
      (assembleResult oldText newText o A B hunks) = true := by
  unfold assembleResult
  split
  · rfl
  · next hh hmatch =>
    split at hmatch
    · unfold applySyntaxHighlighting at hmatch
      split at hmatch
      · obtain rfl := Option.some.inj hmatch
        exact hbase
      · exact highlightHunks_all Q hQtok hmatch hbase
    · obtain rfl := Option.some.inj hmatch
      exact hbase

/-- The hunks of every successful `compute_diff` outcome satisfy any
record-level predicate that holds of each record `create_hunks` builds and is
insensitive to the `tokens` field. -/
theorem computeDiff_hunks_all (Q : DiffChange → Bool)
    (hQtok : ∀ (c : DiffChange) (t : Option (List SyntaxToken)),
      Q c = true → Q { c with tokens := t } = true)
    (hrec : ∀ (A B : List String) (c : RawChange) (r : DiffChange),
      rawToRecord A B c = some r → Q r = true)
    (oldText newText : String) (o : DiffOptions) :
    resultSat (fun r => r.hunks.all fun h => h.changes.all Q)
      (computeDiff oldText newText o) = true := by
  unfold computeDiff
  split
  · rfl
  · next hsize =>
    have hbase : ∀ (cs : List RawChange) (A B : List String),
        ((createHunks cs A B o).all fun h => h.changes.all Q) = true := by
      intro cs A B
      refine all_changes_of_hunksChanges Q _ ?_
      rw [createHunks_changes]
      intro c hc
      rw [List.mem_filterMap] at hc
      obtain ⟨a, _, ha⟩ := hc
      exact hrec _ _ a c ha
    exact assembleResult_all Q hQtok _ _ o _ _ _ (hbase _ _ _)

/-- The assembly tail preserves the hunk counters. -/
theorem assembleResult_counters
    (oldText newText : String) (o : DiffOptions) (A B : List String)
    (hunks : List DiffHunk)
    (hbase : (hunks.all fun h => decide (h.old_lines = 0) && decide (h.new_lines = 0)) = true) :
    resultSat hunkCountersZero (assembleResult oldText newText o A B hunks) = true := by
  unfold assembleResult
  split
  · rfl
  · next hh hmatch =>
    split at hmatch
    · unfold applySyntaxHighlighting at hmatch
      split at hmatch
      · obtain rfl := Option.some.inj hmatch
        exact hbase
      · exact highlightHunks_counters hmatch hbase
    · obtain rfl := Option.some.inj hmatch
      exact hbase

/-- C2, amended.  `create_hunks` initializes `old_lines` and `new_lines` to
`0` and no code path ever updates them, so every hunk of every successful
`compute_diff` outcome carries `old_lines = 0` and `new_lines = 0` regardless
of its change records. -/
theorem c2_hunk_counters_always_zero (oldText newText : String) (o : DiffOptions) :
    resultSat hunkCountersZero (computeDiff oldText newText o) = true := by
  unfold computeDiff
  split
  · rfl
  · refine assembleResult_counters _ _ o _ _ _ ?_
    rw [List.all_eq_true]
    intro h hmem
    have hz := createHunksLoop_counters _ _ _ _ 0 0 none []
      (by simp) (by intro g hg; simp at hg) h
      (by simpa [createHunks] using hmem)
    simp [hz.1, hz.2]

/-- C9: every `Modified` change record in the hunks returned by
`compute_diff` has the empty string as its `content` field, whatever the old
and new line text it stands for — `create_hunks` fills content only for
`Added`/`Removed` (its `_ => ""` arm covers `Modified`), and the decorator
pass never touches content. -/
theorem c9_modified_content_empty (oldText newText : String) (o : DiffOptions) :
    resultSat modifiedContentsEmpty (computeDiff oldText newText o) = true := by
  have h := computeDiff_hunks_all
    (fun c => !(decide (c.change_type = .modified)) || decide (c.content = ""))
    (fun c t hq => by simpa using hq)
    (fun A B c r hr => by
      obtain ⟨ht, hne, hmod⟩ := rawToRecord_some hr
      by_cases hm : r.change_type = .modified
      · have hc : c.1 = .modified := by rw [← ht, hm]
        simp [hmod hc]
      · simp [hm])
    oldText newText o
  exact h

/-- C6, amended.  `create_hunks` never pushes an `Unchanged` record into a
hunk, so hunks carry no `Unchanged` context records at all: `context_lines`
only offsets the hunk start fields and the hunk-break distance. -/
theorem c6_hunks_carry_no_unchanged_records (oldText newText : String) (o : DiffOptions) :
    resultSat noUnchangedRecords (computeDiff oldText newText o) = true := by
  have h := computeDiff_hunks_all
    (fun c => !(decide (c.change_type = .unchanged)))
    (fun c t hq => by simpa using hq)
    (fun A B c r hr => by
      obtain ⟨ht, hne, _⟩ := rawToRecord_some hr
      simp [ht, hne])
    oldText newText o
  exact h

/-- C2, counterexample: with old text `""` and new text `"p\nq"`,
`compute_diff` returns one hunk whose two `Added` records both carry a
`new_line_number`, yet the hunk's `new_lines` field is `0` — the claimed
count invariant fails. -/
theorem c2_counterexample : c2Check (computeDiff "" "p\nq" defaultOptions) = true := by
  decide

/-- C7, counterexample: calling `finalize` on a fresh session — still in
`ReceivingOld`, with no `start_new_file` — succeeds, where the claim requires
every out-of-state call to return `InvalidState`. -/
theorem c7_counterexample : finalizeOk (StreamingDiff.new defaultOptions) = true := by
  decide

/-- C10: evaluating `SyntaxHighlighter::new("rust").highlight("é")` hits the
no-rule-matches path at byte position 0, advances the byte position by one,
and re-slices the line at byte 1 — the middle of the two-byte character `é` —
which in Rust panics (modelled by `none`).  The claim that `highlight` is
total on every UTF-8 input is false. -/
theorem c10_highlight_panics_on_multibyte :
    highlight (syntaxRulesFor "rust") "é" = none := by
  decide

/-- C7, amended.  The session is the state machine
`ReceivingOld → ReceivingNew → Finalized`: `add_old_chunk` succeeds only in
`ReceivingOld`, `start_new_file` only transitions from `ReceivingOld`,
`add_new_chunk` succeeds only in `ReceivingNew`, and those out-of-state calls
return `InvalidState`; but `finalize` is rejected with `InvalidState` only in
the `Finalized` state — it is allowed in `ReceivingOld` as well as
`ReceivingNew` — and a successful `finalize` moves to `Finalized`, so it
cannot run twice. -/
theorem c7_streaming_state_machine : ∀ (s : StreamingDiff) (chunk : String),
    c7Check s chunk = true := by
  intro s chunk
  unfold c7Check
  simp only [Bool.and_eq_true]
  refine ⟨⟨⟨⟨⟨⟨?_, ?_⟩, ?_⟩, ?_⟩, ?_⟩, ?_⟩, ?_⟩
  · by_cases h : s.state = .receivingOld
    · simp [h]
    · simp [StreamingDiff.addOldChunk, h, isInvalidStateErr]
  · by_cases h : s.state = .receivingOld
    · simp [h]
    · simp [StreamingDiff.addOldChunk, h, isOkRes]
  · by_cases h : s.state = .receivingOld
    · simp [h, StreamingDiff.startNewFile]
    · simp [h, StreamingDiff.startNewFile, isInvalidStateErr]
  · by_cases h : s.state = .receivingNew
    · cases hr : s.addNewChunk chunk with
      | none => rfl
      | some pr =>
        obtain ⟨r, s1⟩ := pr
        simp [h]
    · simp [StreamingDiff.addNewChunk, h, isInvalidStateErr, isOkRes]
  · by_cases h : s.state = .finalized
    · simp [h, StreamingDiff.finalize, isInvalidStateErr]
    · simp [h]
  · unfold StreamingDiff.finalize
    by_cases hfin : s.state = .finalized
    · simp [hfin]
    · rw [if_neg hfin]
      cases hp : (if s.old_buffer.lines ≠ [] ∨ s.new_buffer.lines ≠ [] then
          s.processAvailableChunks else some (.ok (), s)) with
      | none => simp
      | some pr =>
        obtain ⟨r, s1⟩ := pr
        cases r with
        | error e => simp
        | ok u => simp
  · simp [finalizeOk, StreamingDiff.finalize, StreamingDiff.new, LineBuffer.new]

/-- C8: each side's streaming buffer is capped at `max_file_size / 2`;
`add_old_chunk` and `add_new_chunk` return `BufferOverflow` whenever the
buffer's accumulated byte count plus the chunk length exceeds that cap, and
the session — in particular the buffer's lines and byte count — is left
unchanged. -/
theorem c8_buffer_cap_and_overflow (o : DiffOptions) (s : StreamingDiff) (chunk : String) :
    ((StreamingDiff.new o).old_buffer.max_size = o.max_file_size / 2 ∧
     (StreamingDiff.new o).new_buffer.max_size = o.max_file_size / 2) ∧
    (s.state = .receivingOld →
      s.old_buffer.max_size < s.old_buffer.total_size + byteLen chunk →
      s.addOldChunk chunk = (.error .bufferOverflow, s)) ∧
    (s.state = .receivingNew →
      s.new_buffer.max_size < s.new_buffer.total_size + byteLen chunk →
      s.addNewChunk chunk = some (.error .bufferOverflow, s)) := by
  refine ⟨⟨rfl, rfl⟩, ?_, ?_⟩
  · intro hst hov
    simp [StreamingDiff.addOldChunk, hst, LineBuffer.addChunk, hov]
  · intro hst hov
    simp [StreamingDiff.addNewChunk, hst, LineBuffer.addChunk, hov]

/-- Witness for C8 at a concrete zero-capacity session: both adders reject a
one-byte chunk with `BufferOverflow` and leave the session unchanged. -/
theorem c8_buffer_cap_and_overflow_witness :
    (StreamingDiff.new { defaultOptions with max_file_size := 0 }).addOldChunk "x" =
      (.error .bufferOverflow, StreamingDiff.new { defaultOptions with max_file_size := 0 }) ∧
    ((StreamingDiff.new { defaultOptions with max_file_size := 0 }).startNewFile.2).addNewChunk "x" =
      some (.error .bufferOverflow,
        (StreamingDiff.new { defaultOptions with max_file_size := 0 }).startNewFile.2) :=
  ⟨(c8_buffer_cap_and_overflow { defaultOptions with max_file_size := 0 }
      (StreamingDiff.new { defaultOptions with max_file_size := 0 }) "x").2.1
      (by decide) (by decide),
   (c8_buffer_cap_and_overflow { defaultOptions with max_file_size := 0 }
      ((StreamingDiff.new { defaultOptions with max_file_size := 0 }).startNewFile.2) "x").2.2
      (by decide) (by decide)⟩

/-- C5: in both the forward search (`forwardStartX`) and the backtracking
pass (`btPrevK`) — which share the predecessor predicate
`choosePrevIsInsert` verbatim — a tie `V[k-1] = V[k+1]` with `-d < k < d`
selects the deletion predecessor: the forward step starts from
`V[k-1] + 1` and the backtracker recurses to diagonal `k - 1`.  Determinism
of the engine is immediate: the embedding is a pure function of its inputs. -/
theorem c5_tie_break_prefers_deletion (d maxd nm : Nat) (k : Int) (v w : List Int)
    (hlo : -(d : Int) < k) (hhi : k < (d : Int))
    (hveq : vGet v (intToUsize (k + (maxd : Int)) - 1) =
      vGet v (intToUsize (k + (maxd : Int)) + 1))
    (hweq : vGet w (intToUsize (k + (nm : Int)) - 1) =
      vGet w (intToUsize (k + (nm : Int)) + 1)) :
    forwardStartX maxd d v k = vGet v (intToUsize (k + (maxd : Int)) - 1) + 1 ∧
    btPrevK nm d w k = k - 1 := by
  have hne1 : k ≠ -(d : Int) := by omega
  have hne2 : k ≠ (d : Int) := by omega
  constructor
  · unfold forwardStartX
    rw [if_neg]
    rintro (h | ⟨-, hlt⟩)
    · exact hne1 h
    · rw [hveq] at hlt
      exact lt_irrefl _ hlt
  · unfold btPrevK
    rw [if_neg]
    rintro (h | ⟨-, hlt⟩)
    · exact hne1 h
    · rw [hweq] at hlt
      exact lt_irrefl _ hlt

/-- Witness for C5 at `d = 2`, `k = 0`, `V = [0, 1, 0, 1, 0]`. -/
theorem c5_tie_break_witness :
    forwardStartX 2 2 [0, 1, 0, 1, 0] 0 = 2 ∧ btPrevK 2 2 [0, 1, 0, 1, 0] 0 = -1 := by
  have h := c5_tie_break_prefers_deletion 2 2 2 0 [0, 1, 0, 1, 0] [0, 1, 0, 1, 0]
    (by decide) (by decide) (by decide) (by decide)
  exact ⟨h.1.trans (by decide), h.2.trans (by decide)⟩

/-- The function `detectModsAux` does not depend on the fuel once it covers the list
length (the scan consumes at least one entry per fuel unit). -/
theorem detectModsAux_congr (A B : List String) :
    ∀ (f1 : Nat) (l : List RawChange) (f2 : Nat), l.length ≤ f1 → l.length ≤ f2 →
      detectModsAux A B f1 l = detectModsAux A B f2 l := by
  intro f1
  induction f1 with
  | zero =>
    intro l f2 h1 _
    obtain rfl : l = [] := List.length_eq_zero.mp (Nat.le_zero.mp h1)
    cases f2 <;> rfl
  | succ f ih =>
    intro l f2 h1 h2
    match l with
    | [] => cases f2 <;> rfl
    | [c] =>
      cases f2 with
      | zero => simp at h2
      | succ f2' => rfl
    | c1 :: c2 :: rest =>
      cases f2 with
      | zero => simp at h2
      | succ f2' =>
        simp only [detectModsAux]
        simp only [List.length_cons] at h1 h2
        by_cases hc : c1.1 = .removed ∧ c2.1 = .added ∧ areLinesSimilar A B c1.2.1 c2.2.2
        · rw [if_pos hc, if_pos hc, ih rest f2' (by omega) (by omega)]
        · rw [if_neg hc, if_neg hc, ih (c2 :: rest) f2' (by simp; omega) (by simp; omega)]

/-- C4, amended.  An adjacent `Removed@i` immediately followed by `Added@j`
(with both indices in range) is coalesced into `Modified@(i,j)` exactly when
`max(|A[i]|,|B[j]|) = 0` or `1 − d/max(|A[i]|,|B[j]|) > 0.5` — where `|·|` is
the BYTE length and `d` is the code's `levenshtein_distance`, whose rows are
indexed by byte positions while iterating `chars()`; `d` equals the
character-level Levenshtein distance on ASCII lines but diverges on
multi-byte lines (`c4_counterexample`).  A pair at exactly 50% similarity is
not coalesced (the comparison is strict). -/
theorem c4_coalesce_rule (A B : List String) (i j j1 i2 : Nat) (rest : List RawChange)
    (hi : i < A.length) (hj : j < B.length) :
    detectMods A B ((.removed, i, j1) :: (.added, i2, j) :: rest) =
      if max (byteLen (A.getD i "")) (byteLen (B.getD j "")) = 0 ∨
          2 * levenshteinDistance (A.getD i "") (B.getD j "") <
            max (byteLen (A.getD i "")) (byteLen (B.getD j "")) then
        (.modified, i, j) :: detectMods A B rest
      else (.removed, i, j1) :: detectMods A B ((.added, i2, j) :: rest) := by
  have hsim : areLinesSimilar A B i j =
      decide (max (byteLen (A.getD i "")) (byteLen (B.getD j "")) = 0 ∨
        2 * levenshteinDistance (A.getD i "") (B.getD j "") <
          max (byteLen (A.getD i "")) (byteLen (B.getD j ""))) := by
    unfold areLinesSimilar
    rw [if_neg (by omega)]
    by_cases h0 : max (byteLen (A.getD i "")) (byteLen (B.getD j "")) = 0
    · simp [h0]
    · simp [h0]
  show detectModsAux A B (rest.length + 2) _ = _
  simp only [detectModsAux]
  by_cases hsimb : areLinesSimilar A B i j = true
  · have hP := of_decide_eq_true (hsim ▸ hsimb)
    rw [if_pos ⟨trivial, trivial, hsimb⟩, if_pos hP,
      detectModsAux_congr A B (rest.length + 1) rest rest.length (by omega) le_rfl]
    rfl
  · have hP : ¬ (max (byteLen (A.getD i "")) (byteLen (B.getD j "")) = 0 ∨
        2 * levenshteinDistance (A.getD i "") (B.getD j "") <
          max (byteLen (A.getD i "")) (byteLen (B.getD j ""))) := by
      intro hp
      exact hsimb (hsim ▸ decide_eq_true hp)
    rw [if_neg (fun hcj => hsimb hcj.2.2), if_neg hP]
    rfl

/-- C4, counterexample: with `A = ["abc"]` and `B = ["é"]` the coalescing
pass produces `Modified` — the code's distance reads a stale row cell at byte
index 2 and returns `0` — although the character-level Levenshtein distance
is `3`, so the claimed predicate (`1 − 3/3 > 0.5`, under either the character
or the byte reading of `|·|`) rejects the pair. -/
theorem c4_counterexample :
    detectMods ["abc"] ["é"] [(.removed, 0, 0), (.added, 0, 0)] = [(.modified, 0, 0)] ∧
    claimCharSimilar "abc" "é" = false ∧
    levenshteinDistance "abc" "é" = 0 ∧ charLevenshtein "abc" "é" = 3 := by
  refine ⟨by decide, by decide, by decide, by decide⟩

/-- Witness for C4 at the similar ASCII pair `"abc"`/`"abd"` (distance 1,
byte length 3, `2·1 < 3`): the pair is coalesced. -/
theorem c4_coalesce_rule_witness :
    (0 < 1 ∧ 0 < 1) ∧
    detectMods ["abc"] ["abd"] [(.removed, 0, 0), (.added, 0, 0)] = [(.modified, 0, 0)] := by
  refine ⟨⟨by decide, by decide⟩, ?_⟩
  have h := c4_coalesce_rule ["abc"] ["abd"] 0 0 0 0 [] (by decide) (by decide)
  rw [h]
  decide

/-! ## The Myers engine on concrete inputs: the `d = 0` backtracking slip

On every input pair with both sides nonempty, the backtracking loop
processes the `d = 0` trace entry, whose predecessor rule yields
`prev_k = k + 1` with `prev_x = 0`, hence `prev_y = -1`; after the snake
walk reaches `(0, 0)`, the `y > prev_y` branch fires once more and pushes
`Right(x, (-1 as usize))` — that is, `Right(x, 2^64 - 1)`.  `ses_to_changes`
then emits one `Added` per index up to `2^64 - 1`. -/
theorem ses_aa : shortestEditScript ["a"] ["a"] =
    [.right 0 (USIZE - 1), .diagonal 0 0] := by decide

theorem ses_abc : shortestEditScript ["a", "b", "c"] ["a", "x", "c"] =
    [.right 0 (USIZE - 1), .diagonal 0 0, .down 1 1, .right 2 1, .diagonal 2 2] := by
  decide

/-- The catch-up loop exits immediately when both cursors have reached the
move's coordinates, for any fuel. -/
theorem catchUp_stop (x y old new : Nat) (acc : List RawChange)
    (h : ¬(old < x ∨ new < y)) :
    ∀ fuel, catchUp x y fuel old new acc = (acc, old, new)
  | 0 => rfl
  | fuel + 1 => by
    simp only [catchUp]
    rw [if_neg h]

theorem sesToChangesRaw_aa :
    sesToChangesRaw ["a"] ["a"] [.right 0 (USIZE - 1), .diagonal 0 0] =
      addedRun ++ [(.unchanged, 0, USIZE)] := by
  have h1 : USIZE - 1 + 1 - 0 = USIZE := by norm_num [USIZE]
  have h2 : max 0 (USIZE - 1 + 1) = USIZE := by norm_num [USIZE]
  unfold sesToChangesRaw
  simp only [sesToChangesLoop, emitRight, h1, h2]
  rw [catchUp_stop 0 0 0 USIZE _ (by simp)]
  simp only [sesToChangesLoop, List.length_cons, List.length_nil]
  have h3 : (1 : Nat) - (0 + 1) = 0 := by norm_num
  have h4 : (1 : Nat) - (USIZE + 1) = 0 := by norm_num [USIZE]
  simp [h3, h4, addedRun]

theorem sesToChangesRaw_abc :
    sesToChangesRaw ["a", "b", "c"] ["a", "x", "c"]
      [.right 0 (USIZE - 1), .diagonal 0 0, .down 1 1, .right 2 1, .diagonal 2 2] =
      addedRun ++
        [(.unchanged, 0, USIZE), (.removed, 1, USIZE + 1), (.unchanged, 2, USIZE + 1)] := by
  have h1 : USIZE - 1 + 1 - 0 = USIZE := by norm_num [USIZE]
  have h2 : max 0 (USIZE - 1 + 1) = USIZE := by norm_num [USIZE]
  unfold sesToChangesRaw
  simp only [sesToChangesLoop, emitRight, h1, h2]
  rw [catchUp_stop 0 0 0 USIZE _ (by simp)]
  simp only [sesToChangesLoop, emitDown, emitRight]
  have h3 : max (0 + 1) (1 + 1) = 2 := by norm_num
  have h4 : (1 : Nat) + 1 - (0 + 1) = 1 := by norm_num
  have h5 : (1 : Nat) + 1 - (USIZE + 1) = 0 := by norm_num [USIZE]
  have h6 : max (USIZE + 1) (1 + 1) = USIZE + 1 := by
    rw [Nat.max_eq_left]
    norm_num [USIZE]
  simp only [h3, h4, h5, h6, List.range'_one, List.range'_zero, List.map_cons,
    List.map_nil, List.append_nil]
  rw [catchUp_stop 2 2 2 (USIZE + 1) _ (by norm_num [USIZE])]
  simp only [sesToChangesLoop, List.length_cons, List.length_nil]
  have h7 : (3 : Nat) - (2 + 1) = 0 := by norm_num
  have h8 : (3 : Nat) - (USIZE + 1 + 1) = 0 := by norm_num [USIZE]
  simp [h7, h8, addedRun]

theorem detectModsAux_nil (A B : List String) : ∀ fuel, detectModsAux A B fuel [] = []
  | 0 => rfl
  | _ + 1 => rfl

/-- The coalescing scan copies a run of `Added` edits unchanged: the
`Removed`-then-`Added` pattern never starts at an `Added` entry. -/
theorem detectModsAux_added_run (A B : List String) :
    ∀ (l rest : List RawChange) (fuel : Nat),
      (∀ c ∈ l, c.1 = .added) → l.length + rest.length ≤ fuel →
      detectModsAux A B fuel (l ++ rest) = l ++ detectModsAux A B (fuel - l.length) rest
  | [], rest, fuel, _, _ => by simp
  | a :: l', rest, fuel, hall, hlen => by
    have ha : a.1 = .added := hall a (List.mem_cons_self a l')
    have hne : ∀ c2 : RawChange, ¬(a.1 = .removed ∧ c2.1 = .added ∧
        areLinesSimilar A B a.2.1 c2.2.2) := by
      intro c2 hcj
      have h1 := hcj.1
      rw [ha] at h1
      exact ChangeType.noConfusion h1
    obtain ⟨f, rfl⟩ : ∃ f, fuel = f + 1 := by
      refine ⟨fuel - 1, ?_⟩
      simp only [List.length_cons] at hlen
      omega
    cases l' with
    | nil =>
      cases rest with
      | nil => simp [detectModsAux, detectModsAux_nil]
      | cons r rs =>
        show detectModsAux A B (f + 1) (a :: r :: rs) = _
        simp only [detectModsAux]
        rw [if_neg (hne r)]
        simp
    | cons b l'' =>
      show detectModsAux A B (f + 1) (a :: b :: (l'' ++ rest)) = _
      simp only [detectModsAux]
      rw [if_neg (hne b)]
      have ih := detectModsAux_added_run A B (b :: l'') rest f
        (fun c hc => hall c (List.mem_cons_of_mem a hc))
        (by simp only [List.length_cons] at hlen ⊢; omega)
      simp only [List.cons_append] at ih
      rw [ih]
      simp only [List.length_cons]
      have hf : f + 1 - (l''.length + 1 + 1) = f - (l''.length + 1) := by omega
      rw [hf]
      simp

theorem addedRun_all_added : ∀ c ∈ addedRun, c.1 = .added := by
  intro c hc
  simp only [addedRun, List.mem_map] at hc
  obtain ⟨j, -, rfl⟩ := hc
  rfl

theorem addedRun_length : addedRun.length = USIZE := by
  simp [addedRun]

theorem detectModsAux_one (A B : List String) (c : RawChange) :
    detectModsAux A B 1 [c] = [c] := rfl

theorem myersComputeDiff_aa :
    myersComputeDiff ["a"] ["a"] = addedRun ++ [(.unchanged, 0, USIZE)] := by
  unfold myersComputeDiff
  rw [if_neg (by simp), if_neg (by simp), if_neg (by simp), ses_aa, sesToChangesRaw_aa]
  unfold detectMods
  have hrun := detectModsAux_added_run ["a"] ["a"] addedRun
    [((.unchanged : ChangeType), 0, USIZE)]
    ((addedRun ++ [((.unchanged : ChangeType), 0, USIZE)]).length)
    addedRun_all_added (by rw [List.length_append])
  rw [hrun]
  have hl : (addedRun ++ [((.unchanged : ChangeType), 0, USIZE)]).length - addedRun.length
      = 1 := by
    rw [List.length_append, List.length_cons, List.length_nil]
    omega
  rw [hl, detectModsAux_one]

theorem detectModsAux_abc_tail :
    detectModsAux ["a", "b", "c"] ["a", "x", "c"] 3
      [(.unchanged, 0, USIZE), (.removed, 1, USIZE + 1), (.unchanged, 2, USIZE + 1)] =
      [(.unchanged, 0, USIZE), (.removed, 1, USIZE + 1), (.unchanged, 2, USIZE + 1)] := by
  decide

theorem myersComputeDiff_abc :
    myersComputeDiff ["a", "b", "c"] ["a", "x", "c"] =
      addedRun ++
        [(.unchanged, 0, USIZE), (.removed, 1, USIZE + 1), (.unchanged, 2, USIZE + 1)] := by
  unfold myersComputeDiff
  rw [if_neg (by simp), if_neg (by simp), if_neg (by simp), ses_abc, sesToChangesRaw_abc]
  unfold detectMods
  have hrun := detectModsAux_added_run ["a", "b", "c"] ["a", "x", "c"] addedRun
    [((.unchanged : ChangeType), 0, USIZE), (.removed, 1, USIZE + 1),
      (.unchanged, 2, USIZE + 1)]
    ((addedRun ++ [((.unchanged : ChangeType), 0, USIZE), (.removed, 1, USIZE + 1),
      (.unchanged, 2, USIZE + 1)]).length)
    addedRun_all_added (by rw [List.length_append])
  rw [hrun]
  have hl : (addedRun ++ [((.unchanged : ChangeType), 0, USIZE), (.removed, 1, USIZE + 1),
      (.unchanged, 2, USIZE + 1)]).length - addedRun.length = 3 := by
    rw [List.length_append, List.length_cons, List.length_cons, List.length_cons,
      List.length_nil]
    omega
  rw [hl, detectModsAux_abc_tail]

theorem length_filterMap_of_all_some {α β : Type} (f : α → Option β) :
    ∀ l : List α, (∀ a ∈ l, (f a).isSome) → (l.filterMap f).length = l.length
  | [], _ => rfl
  | a :: rest, h => by
    cases hf : f a with
    | none =>
      exact absurd (h a (List.mem_cons_self a rest)) (by simp [hf])
    | some b =>
      rw [List.filterMap_cons, hf]
      simp only [List.length_cons]
      rw [length_filterMap_of_all_some f rest fun x hx => h x (List.mem_cons_of_mem a hx)]

/-- C1: the claimed reconstruction property fails on the code.  Already for
`A = B = ["a"]`, the backtracker's misplaced `d = 0` exit emits
`Right(0, (-1 as usize)) = Right(0, 2^64 - 1)` (`ses_aa`), so the produced
edit script consists of `2^64` `Added` edits followed by one `Unchanged`
(`myersComputeDiff_aa`); applying it per the claim's own semantics yields
`2^64 + 1` lines while `B = ["a"]` has one line, so the script cannot
reconstruct `B`.  (In Rust this allocates one change record per `Added` edit
and aborts the process; the repository's own `test_performance` and
`test_mixed_changes` tests could never pass.) -/
theorem c1_script_does_not_reconstruct :
    (applyEditScript ["a"] ["a"] (myersComputeDiff ["a"] ["a"])).length = USIZE + 1 ∧
    (["a"] : List String).length = 1 := by
  refine ⟨?_, rfl⟩
  rw [myersComputeDiff_aa]
  unfold applyEditScript
  rw [length_filterMap_of_all_some (applyEdit ["a"] ["a"]) _ ?hsome]
  · rw [List.length_append, addedRun_length, List.length_cons, List.length_nil]
  case hsome =>
    intro c hc
    rw [List.mem_append] at hc
    rcases hc with hc | hc
    · have ha := addedRun_all_added c hc
      unfold applyEdit
      rw [ha]
      rfl
    · rw [List.mem_singleton] at hc
      rw [hc]
      rfl

theorem runAlgorithm_eq (alg : DiffAlgorithm) (A B : List String) :
    runAlgorithm alg A B = myersComputeDiff A B := by
  cases alg <;> rfl

/-- The function `compute_diff` under the size cap: every algorithm choice runs Myers and
the semantic pass is the identity. -/
theorem computeDiff_eq (oldText newText : String) (o : DiffOptions)
    (hsize : ¬(o.max_file_size < byteLen oldText ∨ o.max_file_size < byteLen newText)) :
    computeDiff oldText newText o =
      assembleResult oldText newText o
        (rustLines (preprocessText oldText newText o).1)
        (rustLines (preprocessText oldText newText o).2)
        (createHunks
          (myersComputeDiff (rustLines (preprocessText oldText newText o).1)
            (rustLines (preprocessText oldText newText o).2))
          (rustLines (preprocessText oldText newText o).1)
          (rustLines (preprocessText oldText newText o).2) o) := by
  unfold computeDiff analyzeChanges
  rw [if_neg hsize]
  simp only [runAlgorithm_eq, ite_self]

theorem countP_filterMap_type (A B : List String) (t : ChangeType) (ht : t ≠ .unchanged) :
    ∀ cs : List RawChange,
    ((cs.filterMap (rawToRecord A B)).countP fun c => decide (c.change_type = t)) =
      cs.countP fun c => decide (c.1 = t)
  | [] => rfl
  | c :: rest => by
    by_cases hu : c.1 = .unchanged
    · rw [List.filterMap_cons,
        show rawToRecord A B c = none from by simp [rawToRecord, hu],
        countP_filterMap_type A B t ht rest, List.countP_cons,
        show (decide (c.1 = t)) = false from decide_eq_false fun h => ht (h ▸ hu)]
      simp
    · rw [List.filterMap_cons,
        show rawToRecord A B c = some (mkHunkChange A B c.1 c.2.1 c.2.2) from by
          simp [rawToRecord, hu],
        List.countP_cons, List.countP_cons, countP_filterMap_type A B t ht rest]
      rfl

theorem addedRun_countP (t : ChangeType) :
    (addedRun.countP fun c => decide (c.1 = t)) =
      if t = .added then USIZE else 0 := by
  unfold addedRun
  rw [List.countP_map]
  by_cases h : t = .added
  · subst h
    rw [if_pos rfl]
    rw [List.countP_eq_length.mpr fun a _ => by rfl]
    rw [List.length_range']
  · rw [if_neg h]
    rw [List.countP_eq_zero.mpr fun a _ => by
      simp only [Function.comp_apply]
      exact fun hd => h (Eq.symm (of_decide_eq_true hd))]

theorem computeDiff_abc_eq :
    computeDiff "a\nb\nc" "a\nx\nc" defaultOptions =
      some (Except.ok
        (DiffResult.mk abcHunks (calculateStats abcHunks 3 3) none false false)) := by
  rw [computeDiff_eq _ _ _ (by decide)]
  have hA : rustLines (preprocessText "a\nb\nc" "a\nx\nc" defaultOptions).1 =
      ["a", "b", "c"] := by decide
  have hB : rustLines (preprocessText "a\nb\nc" "a\nx\nc" defaultOptions).2 =
      ["a", "x", "c"] := by decide
  rw [hA, hB, myersComputeDiff_abc]
  unfold assembleResult
  simp only [show defaultOptions.syntax_highlight = true from rfl,
    show defaultOptions.language = none from rfl, if_true, applySyntaxHighlighting]
  rfl

theorem statsTriple_ok (r : DiffResult) :
    statsTriple (some (.ok r)) =
      some (r.stats.added_lines, r.stats.removed_lines, r.stats.modified_lines) := rfl

theorem calculateStats_added (hunks : List DiffHunk) (a b : Nat) :
    (calculateStats hunks a b).added_lines =
      (hunksChanges hunks).countP fun c => decide (c.change_type = .added) := by
  unfold calculateStats
  rfl

theorem calculateStats_removed (hunks : List DiffHunk) (a b : Nat) :
    (calculateStats hunks a b).removed_lines =
      (hunksChanges hunks).countP fun c => decide (c.change_type = .removed) := by
  unfold calculateStats
  rfl

theorem calculateStats_modified (hunks : List DiffHunk) (a b : Nat) :
    (calculateStats hunks a b).modified_lines =
      (hunksChanges hunks).countP fun c => decide (c.change_type = .modified) := by
  unfold calculateStats
  rfl

/-- C3: evaluating the claimed scenario on the code.  For
`A = ["a","b","c"]`, `B = ["a","x","c"]` with defaults, the statistics of the
result are `added = 2^64, removed = 1, modified = 0` — not the claimed
`added = 0, removed = 0, modified = 1`: the spurious `Right(0, 2^64 - 1)`
move floods the result with `Added` records, and no `Modified` record exists
at all (independently, `b`/`x` would fail the strict 50% similarity test). -/
theorem c3_stats_of_concrete_scenario :
    statsTriple (computeDiff "a\nb\nc" "a\nx\nc" defaultOptions) =
      some (USIZE, 1, 0) := by
  rw [computeDiff_abc_eq, statsTriple_ok,
    show (DiffResult.mk abcHunks (calculateStats abcHunks 3 3) none false false).stats
      = calculateStats abcHunks 3 3 from rfl,
    calculateStats_added, calculateStats_removed, calculateStats_modified,
    show hunksChanges abcHunks =
      (addedRun ++ abcTail).filterMap (rawToRecord ["a", "b", "c"] ["a", "x", "c"]) from
      createHunks_changes _ _ _ _,
    countP_filterMap_type _ _ ChangeType.added (by decide),
    countP_filterMap_type _ _ ChangeType.removed (by decide),
    countP_filterMap_type _ _ ChangeType.modified (by decide),
    List.countP_append, List.countP_append, List.countP_append,
    addedRun_countP, addedRun_countP, addedRun_countP,
    show (abcTail.countP fun c => decide (c.1 = ChangeType.added)) = 0 from by decide,
    show (abcTail.countP fun c => decide (c.1 = ChangeType.removed)) = 1 from by decide,
    show (abcTail.countP fun c => decide (c.1 = ChangeType.modified)) = 0 from by decide]
  norm_num
  exact ⟨fun h => ChangeType.noConfusion h, fun h => ChangeType.noConfusion h⟩

/-- C6, counterexample: for `A = ["a","b","c"]`, `B = ["a","x","c"]` with
`context_lines = 3`, unchanged lines exist on both sides of the change
(`A[0] = B[0] = "a"`, `A[2] = B[2] = "c"`), and the result has at least one
hunk with change records — yet no hunk anywhere contains a single `Unchanged`
record, so no context records are carried. -/
theorem c6_counterexample :
    c6Check (computeDiff "a\nb\nc" "a\nx\nc" defaultOptions) = true ∧
    rustLines "a\nb\nc" = ["a", "b", "c"] ∧ rustLines "a\nx\nc" = ["a", "x", "c"] := by
  refine ⟨?_, by decide, by decide⟩
  have c6Check_ok : ∀ r : DiffResult,
      c6Check (some (.ok r)) = (decide (hunksChanges r.hunks ≠ []) &&
        (r.hunks.all fun h => h.changes.all fun c =>
          !(decide (c.change_type = .unchanged)))) := fun r => rfl
  have mk_hunks : ∀ (hs : List DiffHunk) (st : DiffStats) (fl : Option String)
      (b1 b2 : Bool), (DiffResult.mk hs st fl b1 b2).hunks = hs := fun _ _ _ _ _ => rfl
  rw [computeDiff_abc_eq, c6Check_ok, mk_hunks]
  rw [Bool.and_eq_true]
  constructor
  · rw [decide_eq_true_eq]
    have hcnt : ((hunksChanges abcHunks).countP
        fun c => decide (c.change_type = ChangeType.added)) = USIZE := by
      rw [show hunksChanges abcHunks =
          (addedRun ++ abcTail).filterMap (rawToRecord ["a", "b", "c"] ["a", "x", "c"]) from
          createHunks_changes _ _ _ _,
        countP_filterMap_type _ _ ChangeType.added (by decide), List.countP_append,
        addedRun_countP,
        show (abcTail.countP fun c => decide (c.1 = ChangeType.added)) = 0 from by decide]
      norm_num
    intro hnil
    rw [hnil] at hcnt
    norm_num [USIZE] at hcnt
  · have hall := computeDiff_hunks_all (fun c => !(decide (c.change_type = .unchanged)))
      (fun c t hq => by simpa using hq)
      (fun A B c r hr => by
        obtain ⟨ht, hne, -⟩ := rawToRecord_some hr
        simp [ht, hne])
      "a\nb\nc" "a\nx\nc" defaultOptions
    have resultSat_ok : ∀ (f : DiffResult → Bool) (r : DiffResult),
        resultSat f (some (.ok r)) = f r := fun _ _ => rfl
    rw [computeDiff_abc_eq, resultSat_ok] at hall
    simp only [] at hall
    exact hall

end Diffit
